import Mathlib

/-!
Verification of the scylladb nodejs-rs driver (JavaScript sources under `lib/`)
against its natural-language specification.

The JavaScript sources are shallowly embedded: pure functions become Lean
functions, JS `Number`/`BigInt`/`Long` arithmetic becomes `Int`/`Nat`
arithmetic with explicit wrapping where the source wraps, `Buffer` values
become `List Nat` (each element a byte value `< 256`), and fallible code
returns `Option`/`Except`.
-/

namespace NodejsRsDriver


/-! ## Byte-level helpers (shared by several embeddings)

`natToBytesBE k v` is the `k`-byte big-endian representation of `v % 256^k`,
mirroring `Buffer.writeUIntBE`-style writes; `bytesToNatBE` is the matching
big-endian read.
-/

def bytesToNatBE : List Nat → Nat
  | [] => 0
  | b :: bs => b * 256 ^ bs.length + bytesToNatBE bs

def natToBytesBE : Nat → Nat → List Nat
  | 0, _ => []
  | k+1, v => natToBytesBE k (v / 256) ++ [v % 256]

/-- Reads `k` bytes big-endian from the front of a byte list, returning the
value and the remaining bytes; fails when fewer than `k` bytes remain. -/
def readBytesBE (k : Nat) (bs : List Nat) : Option (Nat × List Nat) :=
  if bs.length < k then none else some (bytesToNatBE (bs.take k), bs.drop k)

/-! ## JS 32-bit coercions

`toInt32` is the ECMAScript `ToInt32` operation restricted to mathematical
integers (`x | 0`); `toUint32` is `x >>> 0`.
-/

def toUint32 (n : Int) : Int := n % 2 ^ 32

def toInt32 (n : Int) : Int := (n + 2 ^ 31) % 2 ^ 32 - 2 ^ 31

/-! ## `Long` (the `long` npm package) and `new-utils.js`

A `Long` stores a 64-bit integer as two 32-bit signed halves `low`/`high`;
its numeric value is `high * 2^32 + (low >>> 0)`.  The `Long` constructor
coerces both arguments with `| 0`.
-/

structure JsLong where
  low : Int
  high : Int
  deriving Repr, DecidableEq

/-- Constructor `new Long(low, high)`: both halves are coerced with `| 0`. -/
def JsLong.make (low high : Int) : JsLong := ⟨toInt32 low, toInt32 high⟩

/-- The 64-bit signed value represented by a `Long`. -/
def JsLong.toInt (l : JsLong) : Int := l.high * 2 ^ 32 + l.low % 2 ^ 32

/-- A `Long` produced by the library always has both halves in 32-bit range. -/
def JsLong.WF (l : JsLong) : Prop :=
  -2^31 ≤ l.low ∧ l.low < 2^31 ∧ -2^31 ≤ l.high ∧ l.high < 2^31

instance (l : JsLong) : Decidable l.WF := by unfold JsLong.WF; infer_instance

/-- Function `bigintToLong` from `lib/new-utils.js`: BigInt `%` and `/` truncate
toward zero, and the result's halves are assembled with `Long.fromValue`. -/
def bigintToLong (targ : Int) : JsLong :=
  let lo := Int.tmod targ (2 ^ 32)
  let hi := Int.tdiv targ (2 ^ 32)
  let hi := if lo < 0 then hi + (-1) else hi
  JsLong.make lo hi

/-- Function `longToBigint` from `lib/new-utils.js`. -/
def longToBigint (l : JsLong) : Int :=
  let lo := l.low
  let hi := l.high
  let r := lo + 2 ^ 32 * hi
  if lo < 0 then r + 2 ^ 32 else r

/-! ## CQL vint coding

Modelled from the spec: `utils.VIntCoding` lives in `lib/utils.js`, which is
not among the given sources.  Spec section 4.1: "An unsigned vint stores the
number of leading 1-bits of the first byte as the extra-byte count, followed
by big-endian payload bits.  A signed vint uses zig-zag mapping over the
unsigned form."
-/

/-- Number of extra bytes used by the unsigned vint encoding of `v < 2^64`. -/
def vintExtraBytes (v : Nat) : Nat :=
  if v < 2^7 then 0 else if v < 2^14 then 1 else if v < 2^21 then 2
  else if v < 2^28 then 3 else if v < 2^35 then 4 else if v < 2^42 then 5
  else if v < 2^49 then 6 else if v < 2^56 then 7 else 8

/-- Modelled from the spec: unsigned vint encoding (first byte carries the
extra-byte count in leading 1-bits, then big-endian payload bits). -/
def writeUnsignedVInt (v : Nat) : List Nat :=
  if vintExtraBytes v = 8 then 255 :: natToBytesBE 8 v
  else (256 - 2^(8 - vintExtraBytes v) + v / 2^(8 * vintExtraBytes v))
        :: natToBytesBE (vintExtraBytes v) (v % 2^(8 * vintExtraBytes v))

/-- Number of leading 1-bits of a byte. -/
def leadingOnes (b : Nat) : Nat :=
  if b < 128 then 0 else if b < 192 then 1 else if b < 224 then 2
  else if b < 240 then 3 else if b < 248 then 4 else if b < 252 then 5
  else if b < 254 then 6 else if b < 255 then 7 else 8

/-- Modelled from the spec: unsigned vint decoding. -/
def readUnsignedVInt : List Nat → Option (Nat × List Nat)
  | [] => none
  | b :: rest =>
    if leadingOnes b = 8 then
      match readBytesBE 8 rest with
      | none => none
      | some (v, r) => some (v, r)
    else
      match readBytesBE (leadingOnes b) rest with
      | none => none
      | some (w, r) => some ((b - (256 - 2^(8 - leadingOnes b))) * 2^(8 * leadingOnes b) + w, r)

/-- Zig-zag mapping of a signed 64-bit value onto the unsigned vint domain. -/
def zigzag (x : Int) : Nat := if 0 ≤ x then (2*x).toNat else (-(2*x) - 1).toNat

/-- Inverse zig-zag mapping. -/
def unzigzag (u : Nat) : Int := if u % 2 = 0 then ((u / 2 : Nat) : Int) else -((u / 2 : Nat) : Int) - 1

/-- Modelled from the spec: `VIntCoding.writeVInt` (signed vint = zig-zag
then unsigned vint). -/
def writeVInt (x : Int) : List Nat := writeUnsignedVInt (zigzag x)

/-- Modelled from the spec: `VIntCoding.readVInt`. -/
def readVInt (bs : List Nat) : Option (Int × List Nat) :=
  (readUnsignedVInt bs).map (fun p => (unzigzag p.1, p.2))

/-! ## `Duration` (lib/types/duration.js), binary codec

Months and days are JS numbers, nanoseconds a BigInt.  `toBuffer` writes the
three fields as signed vints (`utils.VIntCoding.writeVInt`), `fromBuffer`
reads them back.
-/

structure Duration where
  months : Int
  days : Int
  nanoseconds : Int
  deriving Repr, DecidableEq

/-- Serialization `Duration.prototype.toBuffer`: vint of months, days and
nanoseconds concatenated (the nanoseconds BigInt is first converted with
`bigintToLong`). -/
def Duration.toBuffer (d : Duration) : List Nat :=
  writeVInt d.months ++ (writeVInt d.days ++ writeVInt ((bigintToLong d.nanoseconds).toInt))

/-- Deserialization `Duration.fromBuffer`: three vints read in order. -/
def Duration.fromBuffer (bs : List Nat) : Option Duration :=
  match readVInt bs with
  | none => none
  | some (m, r1) =>
    match readVInt r1 with
    | none => none
    | some (dys, r2) =>
      match readVInt r2 with
      | none => none
      | some (ns, _) => some ⟨m, dys, ns⟩

/-! ## `LocalTime` (lib/types/local-time.js) -/

def localTimeMaxNanos : Int := 86399999999999

structure LocalTime where
  value : Int
  deriving Repr, DecidableEq

/-- Constructor of `LocalTime`: rejects a total-nanoseconds `Long` below
zero or above `maxNanos`. -/
def LocalTime.create (totalNanoseconds : Int) : Except String LocalTime :=
  if totalNanoseconds < 0 ∨ totalNanoseconds > localTimeMaxNanos then
    .error "Total nanoseconds out of range"
  else .ok ⟨totalNanoseconds⟩

/-- Signed 32-bit reinterpretation of an unsigned 32-bit value, as performed
by `Buffer.readInt32BE`. -/
def int32OfUint (u : Nat) : Int := if 2^31 ≤ u then (u : Int) - 2^32 else u

/-- Serialization `LocalTime.prototype.toBuffer`: high 32 unsigned bits then
low 32 unsigned bits, big-endian. -/
def LocalTime.toBuffer (t : LocalTime) : List Nat :=
  natToBytesBE 4 ((t.value % 2^64 / 2^32).toNat) ++ natToBytesBE 4 ((t.value % 2^32).toNat)

/-- Deserialization `LocalTime.fromBuffer`:
`new LocalTime(new Long(buf.readInt32BE(4), buf.readInt32BE(0)))`. -/
def LocalTime.fromBuffer (bs : List Nat) : Except String LocalTime :=
  match readBytesBE 4 bs with
  | none => .error "RangeError"
  | some (hiU, rest) =>
    match readBytesBE 4 rest with
    | none => .error "RangeError"
    | some (loU, _) => LocalTime.create (JsLong.make (int32OfUint loU) (int32OfUint hiU)).toInt

/-! ## `FrameReader` (lib/reader.js)

The reader holds a byte buffer and a cursor.  `read` clamps an explicit
length to the buffer end (its doc comment: "if length not provided or it's
larger than the remaining bytes, reads to end"); `readInt` and `readBytes`
check the remaining length first and throw a `RangeError` whose
`expectedLength` field carries the requested length.
-/

structure RangeErr where
  expectedLength : Nat
  deriving Repr, DecidableEq

structure FrameReader where
  buf : List Nat
  offset : Nat
  deriving Repr, DecidableEq

/-- Method `FrameReader.prototype.slice(begin, end)`. -/
def FrameReader.slice (r : FrameReader) (b e : Nat) : List Nat :=
  (r.buf.take e).drop b

/-- Method `FrameReader.prototype.read(length)`: reads to
`offset + length` only when that stays strictly below the buffer length,
otherwise reads to the buffer end. -/
def FrameReader.read (r : FrameReader) (length : Option Nat) : List Nat × FrameReader :=
  let e := match length with
    | some l => if r.offset + l < r.buf.length then r.offset + l else r.buf.length
    | none => r.buf.length
  (r.slice r.offset e, { r with offset := e })

/-- Method `FrameReader.prototype.checkOffset(newLength)`. -/
def FrameReader.checkOffset (r : FrameReader) (newLength : Nat) : Except RangeErr Unit :=
  if r.offset + newLength > r.buf.length then .error ⟨newLength⟩ else .ok ()

/-- Method `FrameReader.prototype.readInt`: checks 4 bytes, then reads a
signed 32-bit big-endian integer and advances the cursor. -/
def FrameReader.readInt (r : FrameReader) : Except RangeErr (Int × FrameReader) :=
  match r.checkOffset 4 with
  | .error e => .error e
  | .ok _ =>
    .ok (int32OfUint (bytesToNatBE ((r.buf.drop r.offset).take 4)),
      { r with offset := r.offset + 4 })

/-- Method `FrameReader.prototype.readBytes`: reads an i32 length, returns
null for a negative length, otherwise checks and reads that many bytes. -/
def FrameReader.readBytes (r : FrameReader) : Except RangeErr (Option (List Nat) × FrameReader) :=
  match r.readInt with
  | .error e => .error e
  | .ok (length, r1) =>
    if length < 0 then .ok (none, r1)
    else match r1.checkOffset length.toNat with
      | .error e => .error e
      | .ok _ => .ok (some (r1.read (some length.toNat)).1, (r1.read (some length.toNat)).2)

/-! ## `Client` connect / shutdown lifecycle (lib/client.js)

The session state is the triple of flags used by `Client.#connect` and
`Client.#shutdown`; the synchronous prefix of `#connect` is embedded as a
function from states to the four possible outcomes, and the asynchronous
attempt completion as the two state updates from the try/catch.
-/

structure ClientConnState where
  connected : Bool
  connecting : Bool
  isShuttingDown : Bool
  deriving Repr, DecidableEq, Fintype

inductive ConnectOutcome where
  /-- Already connected: the call resolves immediately. -/
  | resolved
  /-- After shutdown: throws `NoHostAvailableError`. -/
  | failedNoHostAvailable
  /-- An attempt is in flight: await its `connected` event. -/
  | awaitInFlight
  /-- Starts a fresh attempt, setting `connecting`. -/
  | startAttempt (s : ClientConnState)
  deriving Repr, DecidableEq

/-- Synchronous dispatch of `Client.#connect`. -/
def connectSync (s : ClientConnState) : ConnectOutcome :=
  if s.connected then .resolved
  else if s.isShuttingDown then .failedNoHostAvailable
  else if s.connecting then .awaitInFlight
  else .startAttempt { s with connecting := true }

/-- State update when the session creation succeeds. -/
def connectSuccess (s : ClientConnState) : ClientConnState :=
  { s with connected := true, connecting := false }

/-- State update of the catch branch when session creation fails. -/
def connectFailure (s : ClientConnState) : ClientConnState :=
  { s with connected := false, connecting := false }

/-- State update of `Client.#shutdown`: a never-connected client returns
early; otherwise the flags are set to shutting-down. -/
def shutdownRun (s : ClientConnState) : ClientConnState :=
  if !s.connected then s
  else { s with connected := false, isShuttingDown := true }

/-! ## `AllowListPolicy` (lib/policies/load-balancing.js)

The allow list is built as a map from each listed `ip:port` address to
`true`; `_contains` checks membership by the host's address.  The filtering
iterator returned by `_filter` repeatedly pulls from the child iterator,
skipping hosts that are not contained; `getDistance` reports `ignored` for
hosts outside the list and delegates otherwise.
-/

structure Host where
  address : String
  deriving Repr, DecidableEq

inductive Distance where
  | localD
  | remoteD
  | ignoredD
  deriving Repr, DecidableEq

/-- Membership test `AllowListPolicy.prototype._contains`. -/
def allowListContains (allowList : List String) (h : Host) : Bool :=
  allowList.contains h.address

/-- Distance assignment `AllowListPolicy.prototype.getDistance`, with the
child policy's distance function passed explicitly. -/
def allowListGetDistance (allowList : List String) (childDistance : Host → Distance)
    (h : Host) : Distance :=
  if ¬ allowListContains allowList h then .ignoredD else childDistance h

/-- Sequence of hosts yielded by the iterator `AllowListPolicy.prototype._filter`
wraps around a child iterator: `next()` pulls from the child, recursing past
hosts that are not contained in the allow list. -/
def allowListFilter (allowList : List String) : List Host → List Host
  | [] => []
  | h :: rest =>
    if allowListContains allowList h then h :: allowListFilter allowList rest
    else allowListFilter allowList rest

/-! ## Auto-paged `eachRow` (lib/client.js)

`eachRow`'s `pageCallback` accumulates `rowLength` across page responses,
invokes the per-row callback on each row of the page in order, and, while a
paging state is present and auto-paging is on, issues the next page request;
the final callback receives the accumulated `rowLength`.  A page response is
a pair of paging state and result; the page fetch sequence is embedded as
the list of page responses the server returns, in order.
-/

structure PageResult (ρ : Type) where
  rows : List ρ
  rowLength : Nat
  pagingState : Option (List Nat)

/-- Loop of `pageCallback` under `autoPage`: processes page responses in
order, accumulating the delivered rows and the total row length; returns
`none` when the response list is exhausted with a paging state pending. -/
def eachRowAutoPage {ρ : Type} : List (PageResult ρ) → Nat → List ρ → Option (Nat × List ρ)
  | [], _, _ => none
  | p :: rest, accLen, delivered =>
    match p.pagingState with
    | some _ => eachRowAutoPage rest (accLen + p.rowLength) (delivered ++ p.rows)
    | none => some (accLen + p.rowLength, delivered ++ p.rows)

/-! ## `Client.batch` validation and prepared-statement deduplication
(lib/client.js, `Client.#rustyBatch`)

The element representation distinguishes the three JS shapes the loop can
see: a falsy element (`null`, `undefined`, `false`, `0`), a string, and an
object with an optional `query` field.  A string element is falsy exactly
when it is empty.
-/

inductive BatchElement where
  | nullish
  | str (s : String)
  | obj (query : Option String)
  deriving Repr, DecidableEq

/-- JS truthiness of a batch element (`if (!element)`). -/
def elementTruthy : BatchElement → Bool
  | .nullish => false
  | .str s => !(s == "")
  | .obj _ => true

/-- Statement text extraction:
`typeof element === "string" ? element : element.query`. -/
def elementStatement : BatchElement → Option String
  | .nullish => none
  | .str s => some s
  | .obj q => q

/-- JS truthiness of the extracted statement (`if (!statement)`). -/
def statementTruthy : Option String → Bool
  | none => false
  | some s => !(s == "")

/-- A batch element the loop rejects with `ArgumentError`. -/
def elementInvalid (el : BatchElement) : Bool :=
  !elementTruthy el || !statementTruthy (elementStatement el)

/-- Statement text of a valid element. -/
def elStmt (el : BatchElement) : String := (elementStatement el).getD ""

structure ArgumentError where
  message : String
  deriving Repr, DecidableEq

/-- Modelled from the spec: the per-batch `PreparedCache` (lib/cache.js is
not among the given sources) is a map keyed by query text; `getElement`
looks a text up, `storeElement` inserts it. -/
abbrev PreparedCacheJs := List String

/-- Lookup `PreparedCache.getElement`, keyed by query text. -/
def cacheGet (c : PreparedCacheJs) (k : String) : Bool := c.contains k

/-- Insertion `PreparedCache.storeElement`. -/
def cacheStore (c : PreparedCacheJs) (k : String) : PreparedCacheJs := k :: c

/-- Loop body of `Client.#rustyBatch`: validates each element, resolves the
statement text, and, when preparing, consults the per-batch cache so each
distinct text costs one `prepareQuery` round-trip.  Returns the processed
statements, the final cache, and the number of round-trips. -/
def rustyBatchLoop (prepared : Bool) :
    List BatchElement → Nat → PreparedCacheJs → Nat →
    Except ArgumentError (List String × PreparedCacheJs × Nat)
  | [], _, cache, trips => .ok ([], cache, trips)
  | el :: rest, i, cache, trips =>
    if !elementTruthy el then .error ⟨s!"Invalid query at index {i}"⟩
    else if !statementTruthy (elementStatement el) then
      .error ⟨s!"Invalid query at index {i}"⟩
    else
      let st := elStmt el
      let cache2 := if prepared && !cacheGet cache st then cacheStore cache st else cache
      let trips2 := if prepared && !cacheGet cache st then trips + 1 else trips
      (rustyBatchLoop prepared rest (i+1) cache2 trips2).map
        (fun r => (st :: r.1, r.2.1, r.2.2))

/-- Entry validation of `Client.#rustyBatch`: the queries argument must be a
non-empty array; then the loop runs. -/
def rustyBatch (queriesIsArray : Bool) (queries : List BatchElement) (prepared : Bool) :
    Except ArgumentError (List String × Nat) :=
  if !queriesIsArray then .error ⟨"Queries should be an Array"⟩
  else if queries.length = 0 then .error ⟨"Queries array should not be empty"⟩
  else match rustyBatchLoop prepared queries 0 [] 0 with
    | .error e => .error e
    | .ok (stmts, _, trips) => .ok (stmts, trips)

/-! ## Prepared-statement cache (claim C5)

Two layers: the session-level cache lives on the Rust side (only its
`maxPrepared`/`cacheSize` option crosses the boundary in
`client-options.js`), modelled from the spec as a capacity-bounded cache
keyed by query text with least-recently-used eviction; and the per-batch
`PreparedCache` deduplication of `Client.#rustyBatch`, embedded above.
-/

/-- Modelled from the spec: the default `maxPrepared` capacity (512). -/
def maxPreparedDefault : Nat := 512

/-- Modelled from the spec: insertion into the session-level prepared cache,
keyed by query text, with LRU eviction at capacity. -/
def lruInsert (cap : Nat) (cache : List String) (key : String) : List String :=
  if key ∈ cache then key :: cache.erase key
  else (key :: cache).take cap

/-- State of the session cache after a sequence of prepare operations. -/
def lruOfList (cap : Nat) (ops : List String) : List String :=
  ops.foldl (lruInsert cap) []

/-- Cache contents after the per-batch loop inserts a list of texts. -/
def cacheInsertAll (c : PreparedCacheJs) : List String → PreparedCacheJs
  | [] => c
  | st :: rest => cacheInsertAll (if cacheGet c st then c else cacheStore c st) rest

/-! ## `Duration` text form (lib/types/duration.js)

The text form is embedded at token level: a rendered string is its sign flag
together with the ordered sequence of (value, unit) groups it contains, and
`fromString`'s standard-format parse is the `Builder` fold over those groups
(the regex scan of a rendered duration string finds exactly its groups in
order).

Two wrinkles of the source are captured exactly:
- `append` computes the years figure as `(months / 12).toFixed(0)` on a JS
  float, which for integer `months ≤ 2^31` rounds the quotient half away
  from zero; on naturals that rounding equals `(2 * months + 12) / 24`.
- `Long` negation and division truncate: negation wraps at `i64` (so the
  minimal value negates to itself) and division of the nonnegative operands
  reached here truncates toward zero.
-/

inductive DurUnit where
  | years | months | weeks | days | hours | minutes | seconds | millis | micros | nanos
  deriving Repr, DecidableEq

/-- Builder unit index (`_unitByIndex` order). -/
def unitIndexOf : DurUnit → Nat
  | .years => 1
  | .months => 2
  | .weeks => 3
  | .days => 4
  | .hours => 5
  | .minutes => 6
  | .seconds => 7
  | .millis => 8
  | .micros => 9
  | .nanos => 10

def maxInt32 : Int := 0x7fffffff

def longMaxValue : Int := 2 ^ 63 - 1

/-- Wrap-around of 64-bit two's-complement arithmetic (`Long` overflow). -/
def i64wrap (x : Int) : Int := (x + 2 ^ 63) % 2 ^ 64 - 2 ^ 63

/-- One `append64` step of `Duration.prototype.toString`: skipped when the
dividend is zero or below the divisor, otherwise emits the truncated
quotient and passes on the remainder. -/
def append64step (dividend divisor : Int) (u : DurUnit) : List (Nat × DurUnit) × Int :=
  if dividend = 0 ∨ dividend < divisor then ([], dividend)
  else ([((Int.tdiv dividend divisor).toNat, u)], Int.tmod dividend divisor)

/-- Nanoseconds part of `Duration.prototype.toString`: `append64` over
hours, minutes, seconds, millis, micros, nanos. -/
def durationNanoTokens (nanos : Int) : List (Nat × DurUnit) :=
  let s1 := append64step nanos 3600000000000 .hours
  let s2 := append64step s1.2 60000000000 .minutes
  let s3 := append64step s2.2 1000000000 .seconds
  let s4 := append64step s3.2 1000000 .millis
  let s5 := append64step s4.2 1000 .micros
  let s6 := append64step s5.2 1 .nanos
  s1.1 ++ s2.1 ++ s3.1 ++ s4.1 ++ s5.1 ++ s6.1

/-- Token-level rendering of `Duration.prototype.toString`: the sign flag
(`"-"` prefix) and the ordered (value, unit) groups. -/
def durationToString (d : Duration) : Bool × List (Nat × DurUnit) :=
  let nsL : Int := (bigintToLong d.nanoseconds).toInt
  let isNeg : Bool := decide (d.months < 0) || decide (d.days < 0) || decide (nsL < 0)
  let am : Nat := d.months.natAbs
  let ytok : List (Nat × DurUnit) :=
    if am = 0 ∨ am < 12 then [] else [((2 * am + 12) / 24, .years)]
  let rem : Nat := if am = 0 ∨ am < 12 then am else am % 12
  let motok : List (Nat × DurUnit) := if rem = 0 ∨ rem < 1 then [] else [(rem, .months)]
  let ad : Nat := d.days.natAbs
  let dtok : List (Nat × DurUnit) := if ad = 0 ∨ ad < 1 then [] else [(ad, .days)]
  let ntoks : List (Nat × DurUnit) :=
    if nsL = 0 then []
    else durationNanoTokens (if nsL < 0 then i64wrap (-nsL) else nsL)
  (isNeg, ytok ++ motok ++ dtok ++ ntoks)

structure DurBuilder where
  isNegative : Bool
  unitIndex : Nat
  months : Int
  days : Int
  nanoseconds : Int
  deriving Repr, DecidableEq

/-- Order validation `Builder.prototype._validateOrder`. -/
def validateOrder (b : DurBuilder) (idx : Nat) : Except String DurBuilder :=
  if idx = b.unitIndex then .error "The unit is specified multiple times"
  else if idx ≤ b.unitIndex then .error "The unit is out of order"
  else .ok { b with unitIndex := idx }

/-- One `Builder.prototype.add` dispatch (`addYears` .. `addNanos`).  The
32-bit validations compare the parsed value against
`(maxInt32 - acc) / perUnit`; the JS float division of these integers
compares to an integer exactly as the floor division does.  The 64-bit
validations use `Long` division, truncating. -/
def builderAdd (b : DurBuilder) (tok : Nat × DurUnit) : Except String DurBuilder :=
  let v : Int := tok.1
  let idx := unitIndexOf tok.2
  if idx = b.unitIndex then .error "The unit is specified multiple times"
  else if idx ≤ b.unitIndex then .error "The unit is out of order"
  else
    let b := { b with unitIndex := idx }
    match tok.2 with
    | .years =>
      if v > (maxInt32 - b.months) / 12 then .error "months overflow"
      else .ok { b with months := b.months + v * 12 }
    | .months =>
      if v > (maxInt32 - b.months) / 1 then .error "months overflow"
      else .ok { b with months := b.months + v }
    | .weeks =>
      if v > (maxInt32 - b.days) / 7 then .error "days overflow"
      else .ok { b with days := b.days + v * 7 }
    | .days =>
      if v > (maxInt32 - b.days) / 1 then .error "days overflow"
      else .ok { b with days := b.days + v }
    | .hours =>
      if v > Int.tdiv (longMaxValue - b.nanoseconds) 3600000000000 then
        .error "nanoseconds overflow"
      else .ok { b with nanoseconds := b.nanoseconds + v * 3600000000000 }
    | .minutes =>
      if v > Int.tdiv (longMaxValue - b.nanoseconds) 60000000000 then
        .error "nanoseconds overflow"
      else .ok { b with nanoseconds := b.nanoseconds + v * 60000000000 }
    | .seconds =>
      if v > Int.tdiv (longMaxValue - b.nanoseconds) 1000000000 then
        .error "nanoseconds overflow"
      else .ok { b with nanoseconds := b.nanoseconds + v * 1000000000 }
    | .millis =>
      if v > Int.tdiv (longMaxValue - b.nanoseconds) 1000000 then
        .error "nanoseconds overflow"
      else .ok { b with nanoseconds := b.nanoseconds + v * 1000000 }
    | .micros =>
      if v > Int.tdiv (longMaxValue - b.nanoseconds) 1000 then
        .error "nanoseconds overflow"
      else .ok { b with nanoseconds := b.nanoseconds + v * 1000 }
    | .nanos =>
      if v > Int.tdiv (longMaxValue - b.nanoseconds) 1 then
        .error "nanoseconds overflow"
      else .ok { b with nanoseconds := b.nanoseconds + v }

/-- Final construction `Builder.prototype.build`. -/
def builderBuild (b : DurBuilder) : Duration :=
  if b.isNegative then ⟨-b.months, -b.days, i64wrap (-b.nanoseconds)⟩
  else ⟨b.months, b.days, b.nanoseconds⟩

/-- Token-level `Duration.fromString` of a rendered duration (the standard
format branch: a leading `-` sets the negative flag, then the regex groups
feed `Builder.prototype.add` in order and `build` finishes). -/
def durationFromString (s : Bool × List (Nat × DurUnit)) : Except String Duration := do
  let b ← s.2.foldlM builderAdd ⟨s.1, 0, 0, 0, 0⟩
  .ok (builderBuild b)

/-- Months contributed by one parsed group. -/
def tokMonths : Nat × DurUnit → Int
  | (v, .years) => v * 12
  | (v, .months) => v
  | _ => 0

/-- Days contributed by one parsed group. -/
def tokDays : Nat × DurUnit → Int
  | (v, .weeks) => v * 7
  | (v, .days) => v
  | _ => 0

/-- Nanoseconds contributed by one parsed group. -/
def tokNanos : Nat × DurUnit → Int
  | (v, .hours) => v * 3600000000000
  | (v, .minutes) => v * 60000000000
  | (v, .seconds) => v * 1000000000
  | (v, .millis) => v * 1000000
  | (v, .micros) => v * 1000
  | (v, .nanos) => v
  | _ => 0

/-! ## CQL type codec (claim C1)

Modelled from the spec: the cell codec (`encoder.js` / the Rust-side
serializer) is not among the given sources; the per-type wire rules of spec
section 4.2 are modelled for every variant of the spec's `CqlType`
(section 3): the fixed big-endian integral types, IEEE-754 `float`/`double`
(carried by their 32/64-bit patterns, since the codec moves the pattern
verbatim), arbitrary-precision `varint` (minimal two's-complement
big-endian) and `decimal` (i32 scale then varint mantissa), the raw-byte
types (`ascii`/`text`/`blob`/`uuid`/`timeuuid`/`inet`/`custom`),
`duration` (three vints, as `Duration.toBuffer` does), the homogeneous
collections `list`/`set` (i32 count then length-prefixed cells), `map`
(i32 count then alternating key/value length-prefixed cells), the
heterogeneous `tuple` and `udt` (each component length-prefixed, in
declaration order) and `vector` (dim concatenated elements, length prefix
only when the element type is variable-size; the scalar types of known
serialized width count as fixed-size).  `encode` takes the value and the
`CqlType` hint, as the spec's `encode(value, hint)` does.
`Duration.fromBuffer`/`toBuffer` and `LocalTime.fromBuffer`/`toBuffer`
above are embedded from the source and give the two named instances of the
claim.
-/

inductive CqlType where
  | boolean | tinyint | smallint | int | bigint | counter | timestamp | date | time
  | float | double | varint | decimal
  | ascii | text | blob | uuid | timeuuid | inet | duration
  | list (t : CqlType)
  | set (t : CqlType)
  | map (k v : CqlType)
  | tuple (ts : List CqlType)
  | udt (name : String) (fields : List CqlType)
  | vector (t : CqlType) (dim : Nat)
  | custom (name : String)

mutual
inductive CqlValue where
  | boolean (b : Bool)
  | tinyint (n : Int)
  | smallint (n : Int)
  | int (n : Int)
  | bigint (n : Int)
  | counter (n : Int)
  | timestamp (n : Int)
  | date (n : Nat)
  | time (n : Int)
  | float (bits : Nat)
  | double (bits : Nat)
  | varint (n : Int)
  | decimal (scale unscaled : Int)
  | ascii (bs : List Nat)
  | text (bs : List Nat)
  | blob (bs : List Nat)
  | uuid (bs : List Nat)
  | timeuuid (bs : List Nat)
  | inet (bs : List Nat)
  | duration (months days nanos : Int)
  | list (xs : CqlValueList)
  | set (xs : CqlValueList)
  | map (ps : CqlPairList)
  | tuple (xs : CqlValueList)
  | udt (xs : CqlValueList)
  | vector (xs : CqlValueList)
  | custom (bs : List Nat)

inductive CqlValueList where
  | nil
  | cons (v : CqlValue) (vs : CqlValueList)

inductive CqlPairList where
  | nil
  | cons (k v : CqlValue) (ps : CqlPairList)
end

def CqlValueList.length : CqlValueList → Nat
  | .nil => 0
  | .cons _ vs => 1 + vs.length

def CqlPairList.length : CqlPairList → Nat
  | .nil => 0
  | .cons _ _ ps => 1 + ps.length

/-- Modelled from the spec: number of bytes of the minimal two's-complement
big-endian representation of an integer (the `varint` wire form). -/
def varintLen (n : Int) : Nat :=
  if h : -128 ≤ n ∧ n < 128 then 1 else 1 + varintLen (n / 256)
termination_by n.natAbs
decreasing_by
  simp_wf
  omega

/-- Modelled from the spec: `varint` cell, the minimal two's-complement
big-endian bytes of the value. -/
def varintBytes (n : Int) : List Nat :=
  natToBytesBE (varintLen n) ((n % 2 ^ (8 * varintLen n)).toNat)

/-- Serialized width of the fixed-size types (the scalar types whose cells
always occupy the same number of bytes); `none` for the variable-size
types. -/
def fixedSize : CqlType → Option Nat
  | .boolean => some 1
  | .tinyint => some 1
  | .smallint => some 2
  | .int => some 4
  | .float => some 4
  | .date => some 4
  | .bigint => some 8
  | .counter => some 8
  | .timestamp => some 8
  | .time => some 8
  | .double => some 8
  | .uuid => some 16
  | .timeuuid => some 16
  | _ => none

mutual
/-- Modelled from the spec: cell encoding per the wire rules of section 4.2,
given the value and the `CqlType` hint (a mismatched value/hint pair, which
the codec rejects, encodes as the empty cell here and is excluded by
`wfCql`). -/
def encodeCql : CqlType → CqlValue → List Nat
  | .boolean, v => match v with | .boolean b => [if b then 1 else 0] | _ => []
  | .tinyint, v => match v with | .tinyint n => natToBytesBE 1 ((n % 2^8).toNat) | _ => []
  | .smallint, v => match v with | .smallint n => natToBytesBE 2 ((n % 2^16).toNat) | _ => []
  | .int, v => match v with | .int n => natToBytesBE 4 ((n % 2^32).toNat) | _ => []
  | .bigint, v => match v with | .bigint n => natToBytesBE 8 ((n % 2^64).toNat) | _ => []
  | .counter, v => match v with | .counter n => natToBytesBE 8 ((n % 2^64).toNat) | _ => []
  | .timestamp, v => match v with | .timestamp n => natToBytesBE 8 ((n % 2^64).toNat) | _ => []
  | .date, v => match v with | .date n => natToBytesBE 4 n | _ => []
  | .time, v => match v with | .time n => natToBytesBE 8 ((n % 2^64).toNat) | _ => []
  | .float, v => match v with | .float bits => natToBytesBE 4 bits | _ => []
  | .double, v => match v with | .double bits => natToBytesBE 8 bits | _ => []
  | .varint, v => match v with | .varint n => varintBytes n | _ => []
  | .decimal, v =>
    match v with
    | .decimal sc un => natToBytesBE 4 ((sc % 2^32).toNat) ++ varintBytes un
    | _ => []
  | .ascii, v => match v with | .ascii bs => bs | _ => []
  | .text, v => match v with | .text bs => bs | _ => []
  | .blob, v => match v with | .blob bs => bs | _ => []
  | .uuid, v => match v with | .uuid bs => bs | _ => []
  | .timeuuid, v => match v with | .timeuuid bs => bs | _ => []
  | .inet, v => match v with | .inet bs => bs | _ => []
  | .duration, v =>
    match v with
    | .duration mo dd nn => writeVInt mo ++ (writeVInt dd ++ writeVInt nn)
    | _ => []
  | .list t, v =>
    match v with
    | .list xs => natToBytesBE 4 xs.length ++ encodeCqlElems t xs
    | _ => []
  | .set t, v =>
    match v with
    | .set xs => natToBytesBE 4 xs.length ++ encodeCqlElems t xs
    | _ => []
  | .map k vt, v =>
    match v with
    | .map ps => natToBytesBE 4 ps.length ++ encodeCqlPairs k vt ps
    | _ => []
  | .tuple ts, v => match v with | .tuple xs => encodeCqlTuple ts xs | _ => []
  | .udt _ fs, v => match v with | .udt xs => encodeCqlTuple fs xs | _ => []
  | .vector t _, v =>
    match v with
    | .vector xs =>
      match fixedSize t with
      | some _ => encodeCqlConcat t xs
      | none => encodeCqlElems t xs
    | _ => []
  | .custom _, v => match v with | .custom bs => bs | _ => []
termination_by t v => sizeOf v

/-- Elements of a `list`/`set` (and of a variable-size `vector`), each as
an i32 length prefix plus the cell. -/
def encodeCqlElems : CqlType → CqlValueList → List Nat
  | _, .nil => []
  | t, .cons v vs =>
    natToBytesBE 4 (encodeCql t v).length ++ (encodeCql t v ++ encodeCqlElems t vs)
termination_by t xs => sizeOf xs

/-- Entries of a `map`: alternating key/value length-prefixed cells. -/
def encodeCqlPairs : CqlType → CqlType → CqlPairList → List Nat
  | _, _, .nil => []
  | k, v, .cons kv vv ps =>
    natToBytesBE 4 (encodeCql k kv).length ++ (encodeCql k kv ++
      (natToBytesBE 4 (encodeCql v vv).length ++ (encodeCql v vv ++
        encodeCqlPairs k v ps)))
termination_by k v ps => sizeOf ps

/-- Components of a `tuple`/`udt`: each length-prefixed, in declaration
order. -/
def encodeCqlTuple : List CqlType → CqlValueList → List Nat
  | _, .nil => []
  | [], .cons _ _ => []
  | t :: ts, .cons v vs =>
    natToBytesBE 4 (encodeCql t v).length ++ (encodeCql t v ++ encodeCqlTuple ts vs)
termination_by ts xs => sizeOf xs

/-- Elements of a fixed-size `vector`: cells concatenated with no prefix. -/
def encodeCqlConcat : CqlType → CqlValueList → List Nat
  | _, .nil => []
  | t, .cons v vs => encodeCql t v ++ encodeCqlConcat t vs
termination_by t xs => sizeOf xs
end

/-- Signed big-endian read of a `k`-byte cell. -/
def intOfBytesBE (k : Nat) (bs : List Nat) : Int :=
  if 2^(8*k - 1) ≤ (bytesToNatBE bs : Int) then (bytesToNatBE bs : Int) - 2^(8*k)
  else (bytesToNatBE bs : Int)

mutual
/-- Modelled from the spec: cell decoding, the inverse reading of
`encodeCql`; a cell is consumed exactly. -/
def decodeCql : CqlType → List Nat → Option CqlValue
  | .boolean, bs =>
    if bs = [0] then some (.boolean false)
    else if bs = [1] then some (.boolean true) else none
  | .tinyint, bs => if bs.length = 1 then some (.tinyint (intOfBytesBE 1 bs)) else none
  | .smallint, bs => if bs.length = 2 then some (.smallint (intOfBytesBE 2 bs)) else none
  | .int, bs => if bs.length = 4 then some (.int (intOfBytesBE 4 bs)) else none
  | .bigint, bs => if bs.length = 8 then some (.bigint (intOfBytesBE 8 bs)) else none
  | .counter, bs => if bs.length = 8 then some (.counter (intOfBytesBE 8 bs)) else none
  | .timestamp, bs => if bs.length = 8 then some (.timestamp (intOfBytesBE 8 bs)) else none
  | .date, bs => if bs.length = 4 then some (.date (bytesToNatBE bs)) else none
  | .time, bs => if bs.length = 8 then some (.time (intOfBytesBE 8 bs)) else none
  | .float, bs => if bs.length = 4 then some (.float (bytesToNatBE bs)) else none
  | .double, bs => if bs.length = 8 then some (.double (bytesToNatBE bs)) else none
  | .varint, bs => if bs = [] then none else some (.varint (intOfBytesBE bs.length bs))
  | .decimal, bs =>
    match readBytesBE 4 bs with
    | none => none
    | some (u, rest) =>
      if rest = [] then none
      else some (.decimal (int32OfUint u) (intOfBytesBE rest.length rest))
  | .ascii, bs => some (.ascii bs)
  | .text, bs => some (.text bs)
  | .blob, bs => some (.blob bs)
  | .uuid, bs => if bs.length = 16 then some (.uuid bs) else none
  | .timeuuid, bs => if bs.length = 16 then some (.timeuuid bs) else none
  | .inet, bs => if bs.length = 4 ∨ bs.length = 16 then some (.inet bs) else none
  | .duration, bs =>
    match readVInt bs with
    | none => none
    | some (mo, r1) =>
      match readVInt r1 with
      | none => none
      | some (dd, r2) =>
        match readVInt r2 with
        | none => none
        | some (nn, r3) => if r3 = [] then some (.duration mo dd nn) else none
  | .list t, bs =>
    match readBytesBE 4 bs with
    | none => none
    | some (cnt, rest) =>
      match decodeCqlElems t cnt rest with
      | some (xs, []) => some (.list xs)
      | _ => none
  | .set t, bs =>
    match readBytesBE 4 bs with
    | none => none
    | some (cnt, rest) =>
      match decodeCqlElems t cnt rest with
      | some (xs, []) => some (.set xs)
      | _ => none
  | .map k v, bs =>
    match readBytesBE 4 bs with
    | none => none
    | some (cnt, rest) =>
      match decodeCqlPairs k v cnt rest with
      | some (ps, []) => some (.map ps)
      | _ => none
  | .tuple ts, bs =>
    match decodeCqlTuple ts bs with
    | some (xs, []) => some (.tuple xs)
    | _ => none
  | .udt _ fs, bs =>
    match decodeCqlTuple fs bs with
    | some (xs, []) => some (.udt xs)
    | _ => none
  | .vector t dim, bs =>
    match fixedSize t with
    | some s =>
      match decodeVecFixed t s dim bs with
      | some xs => some (.vector xs)
      | none => none
    | none =>
      match decodeCqlElems t dim bs with
      | some (xs, []) => some (.vector xs)
      | _ => none
  | .custom _, bs => some (.custom bs)
termination_by t bs => (sizeOf t, 0)

/-- Reads `n` length-prefixed elements of type `t`. -/
def decodeCqlElems : CqlType → Nat → List Nat → Option (CqlValueList × List Nat)
  | _, 0, bs => some (.nil, bs)
  | t, n+1, bs =>
    match readBytesBE 4 bs with
    | none => none
    | some (len, rest) =>
      if rest.length < len then none
      else
        match decodeCql t (rest.take len) with
        | none => none
        | some v =>
          match decodeCqlElems t n (rest.drop len) with
          | none => none
          | some (vs, rem) => some (.cons v vs, rem)
termination_by t n bs => (sizeOf t, n + 1)

/-- Reads `n` alternating key/value length-prefixed entries of a map. -/
def decodeCqlPairs : CqlType → CqlType → Nat → List Nat → Option (CqlPairList × List Nat)
  | _, _, 0, bs => some (.nil, bs)
  | k, v, n+1, bs =>
    match readBytesBE 4 bs with
    | none => none
    | some (klen, r1) =>
      if r1.length < klen then none
      else
        match decodeCql k (r1.take klen) with
        | none => none
        | some kv =>
          match readBytesBE 4 (r1.drop klen) with
          | none => none
          | some (vlen, r2) =>
            if r2.length < vlen then none
            else
              match decodeCql v (r2.take vlen) with
              | none => none
              | some vv =>
                match decodeCqlPairs k v n (r2.drop vlen) with
                | none => none
                | some (ps, rem) => some (.cons kv vv ps, rem)
termination_by k v n bs => (sizeOf k + sizeOf v, n + 1)
decreasing_by
  all_goals simp_wf
  all_goals
    first
      | (apply Prod.Lex.right
         omega)
      | (apply Prod.Lex.left
         have hk : 0 < sizeOf k := by cases k <;> simp_arith
         have hv : 0 < sizeOf v := by cases v <;> simp_arith
         omega)

/-- Reads the components of a `tuple`/`udt`, walking the field types. -/
def decodeCqlTuple : List CqlType → List Nat → Option (CqlValueList × List Nat)
  | [], bs => some (.nil, bs)
  | t :: ts, bs =>
    match readBytesBE 4 bs with
    | none => none
    | some (len, rest) =>
      if rest.length < len then none
      else
        match decodeCql t (rest.take len) with
        | none => none
        | some v =>
          match decodeCqlTuple ts (rest.drop len) with
          | none => none
          | some (vs, rem) => some (.cons v vs, rem)
termination_by ts bs => (sizeOf ts, 0)

/-- Reads `d` unprefixed cells of `s` bytes each (fixed-size vector). -/
def decodeVecFixed : CqlType → Nat → Nat → List Nat → Option CqlValueList
  | _, _, 0, bs => if bs = [] then some .nil else none
  | t, s, d+1, bs =>
    if bs.length < s then none
    else
      match decodeCql t (bs.take s) with
      | none => none
      | some v =>
        match decodeVecFixed t s d (bs.drop s) with
        | none => none
        | some vs => some (.cons v vs)
termination_by t s d bs => (sizeOf t, d + 1)
end

mutual
/-- Modelled from the spec: a value is well formed at a type when its shape
matches and its components are in the type's range (collection counts and
element encodings fit the i32 length prefixes). -/
def wfCql : CqlType → CqlValue → Bool
  | .boolean, v => match v with | .boolean _ => true | _ => false
  | .tinyint, v => match v with | .tinyint n => decide (-2^7 ≤ n ∧ n < 2^7) | _ => false
  | .smallint, v => match v with | .smallint n => decide (-2^15 ≤ n ∧ n < 2^15) | _ => false
  | .int, v => match v with | .int n => decide (-2^31 ≤ n ∧ n < 2^31) | _ => false
  | .bigint, v => match v with | .bigint n => decide (-2^63 ≤ n ∧ n < 2^63) | _ => false
  | .counter, v => match v with | .counter n => decide (-2^63 ≤ n ∧ n < 2^63) | _ => false
  | .timestamp, v => match v with | .timestamp n => decide (-2^63 ≤ n ∧ n < 2^63) | _ => false
  | .date, v => match v with | .date n => decide (n < 2^32) | _ => false
  | .time, v => match v with | .time n => decide (0 ≤ n ∧ n < 86400000000000) | _ => false
  | .float, v => match v with | .float bits => decide (bits < 2^32) | _ => false
  | .double, v => match v with | .double bits => decide (bits < 2^64) | _ => false
  | .varint, v => match v with | .varint _ => true | _ => false
  | .decimal, v =>
    match v with
    | .decimal sc _ => decide (-2^31 ≤ sc ∧ sc < 2^31)
    | _ => false
  | .ascii, v => match v with | .ascii bs => bs.all (fun b => decide (b < 128)) | _ => false
  | .text, v => match v with | .text bs => bs.all (fun b => decide (b < 256)) | _ => false
  | .blob, v => match v with | .blob bs => bs.all (fun b => decide (b < 256)) | _ => false
  | .uuid, v =>
    match v with
    | .uuid bs => decide (bs.length = 16) && bs.all (fun b => decide (b < 256))
    | _ => false
  | .timeuuid, v =>
    match v with
    | .timeuuid bs => decide (bs.length = 16) && bs.all (fun b => decide (b < 256))
    | _ => false
  | .inet, v =>
    match v with
    | .inet bs =>
      (decide (bs.length = 4) || decide (bs.length = 16)) && bs.all (fun b => decide (b < 256))
    | _ => false
  | .duration, v =>
    match v with
    | .duration mo dd nn =>
      decide (-2^31 ≤ mo ∧ mo < 2^31) && decide (-2^31 ≤ dd ∧ dd < 2^31) &&
        decide (-2^63 ≤ nn ∧ nn < 2^63)
    | _ => false
  | .list t, v =>
    match v with
    | .list xs => decide (xs.length < 2^31) && wfCqlList t xs
    | _ => false
  | .set t, v =>
    match v with
    | .set xs => decide (xs.length < 2^31) && wfCqlList t xs
    | _ => false
  | .map k vt, v =>
    match v with
    | .map ps => decide (ps.length < 2^31) && wfCqlPairs k vt ps
    | _ => false
  | .tuple ts, v => match v with | .tuple xs => wfCqlTuple ts xs | _ => false
  | .udt _ fs, v => match v with | .udt xs => wfCqlTuple fs xs | _ => false
  | .vector t dim, v =>
    match v with
    | .vector xs => decide (xs.length = dim) && wfCqlList t xs
    | _ => false
  | .custom _, v => match v with | .custom bs => bs.all (fun b => decide (b < 256)) | _ => false
termination_by t v => sizeOf v

def wfCqlList : CqlType → CqlValueList → Bool
  | _, .nil => true
  | t, .cons v vs =>
    wfCql t v && decide ((encodeCql t v).length < 2^31) && wfCqlList t vs
termination_by t xs => sizeOf xs

def wfCqlPairs : CqlType → CqlType → CqlPairList → Bool
  | _, _, .nil => true
  | k, v, .cons kv vv ps =>
    wfCql k kv && decide ((encodeCql k kv).length < 2^31) &&
      (wfCql v vv && decide ((encodeCql v vv).length < 2^31)) && wfCqlPairs k v ps
termination_by k v ps => sizeOf ps

def wfCqlTuple : List CqlType → CqlValueList → Bool
  | [], .nil => true
  | t :: ts, .cons v vs =>
    wfCql t v && decide ((encodeCql t v).length < 2^31) && wfCqlTuple ts vs
  | _, _ => false
termination_by ts xs => sizeOf xs
end

theorem natToBytesBE_length (k v : Nat) : (natToBytesBE k v).length = k := by
  induction k generalizing v with
  | zero => rfl
  | succ k ih => simp [natToBytesBE, ih]

theorem bytesToNatBE_append (xs ys : List Nat) :
    bytesToNatBE (xs ++ ys) = bytesToNatBE xs * 256 ^ ys.length + bytesToNatBE ys := by
  induction xs with
  | nil => simp [bytesToNatBE]
  | cons b bs ih =>
      simp only [List.cons_append, bytesToNatBE, List.append_eq, List.length_append, ih]
      ring

theorem bytesToNatBE_natToBytesBE (k v : Nat) :
    bytesToNatBE (natToBytesBE k v) = v % 256 ^ k := by
  induction k generalizing v with
  | zero => simp [natToBytesBE, bytesToNatBE, Nat.mod_one]
  | succ k ih =>
      rw [natToBytesBE, bytesToNatBE_append, ih]
      simp only [bytesToNatBE, List.length_singleton, pow_one, List.length_nil, pow_zero,
        Nat.mul_one, Nat.add_zero]
      have : v % 256 ^ (k + 1) = 256 * (v / 256 % 256 ^ k) + v % 256 := by
        conv_lhs => rw [pow_succ, Nat.mul_comm (256 ^ k) 256, Nat.mod_mul]
        ring
      omega

theorem bytesToNatBE_lt (bs : List Nat) (h : ∀ b ∈ bs, b < 256) :
    bytesToNatBE bs < 256 ^ bs.length := by
  induction bs with
  | nil => simp [bytesToNatBE]
  | cons b bs ih =>
      have hb : b < 256 := h b (by simp)
      have hrec := ih (fun x hx => h x (by simp [hx]))
      simp only [bytesToNatBE, List.length_cons]
      have : 256 ^ (bs.length + 1) = 256 ^ bs.length * 256 := by rw [pow_succ]
      nlinarith [pow_pos (show (0:Nat) < 256 by norm_num) bs.length]

theorem natToBytesBE_mem_lt (k v : Nat) : ∀ b ∈ natToBytesBE k v, b < 256 := by
  induction k generalizing v with
  | zero => simp [natToBytesBE]
  | succ k ih =>
      intro b hb
      simp only [natToBytesBE, List.mem_append, List.mem_singleton] at hb
      rcases hb with hb | hb
      · exact ih _ b hb
      · subst hb; exact Nat.mod_lt _ (by norm_num)

theorem readBytesBE_append (k v : Nat) (rest : List Nat) :
    readBytesBE k (natToBytesBE k v ++ rest) = some (v % 256 ^ k, rest) := by
  have hlen : (natToBytesBE k v).length = k := natToBytesBE_length k v
  unfold readBytesBE
  rw [List.length_append, hlen]
  simp only [show ¬ (k + rest.length < k) by omega, if_false]
  rw [List.take_left' hlen, List.drop_left' hlen, bytesToNatBE_natToBytesBE]

theorem toInt32_bounds (n : Int) : -2^31 ≤ toInt32 n ∧ toInt32 n < 2^31 := by
  unfold toInt32
  have := Int.emod_nonneg (n + 2 ^ 31) (show (2:Int)^32 ≠ 0 by norm_num)
  have := Int.emod_lt_of_pos (n + 2 ^ 31) (show (0:Int) < 2^32 by norm_num)
  omega

theorem toInt32_emod (n : Int) : toInt32 n % 2^32 = n % 2^32 := by
  unfold toInt32
  omega

theorem toInt32_of_range (n : Int) (h1 : -2^31 ≤ n) (h2 : n < 2^31) : toInt32 n = n := by
  unfold toInt32
  have : (n + 2^31) % 2^32 = n + 2^31 := Int.emod_eq_of_lt (by omega) (by omega)
  omega

theorem JsLong.make_wf (low high : Int) : (JsLong.make low high).WF := by
  unfold JsLong.make JsLong.WF
  have h1 := toInt32_bounds low
  have h2 := toInt32_bounds high
  exact ⟨h1.1, h1.2, h2.1, h2.2⟩

theorem longToBigint_eq_toInt (l : JsLong) (h : l.WF) : longToBigint l = l.toInt := by
  obtain ⟨h1, h2, h3, h4⟩ := h
  unfold longToBigint JsLong.toInt
  by_cases hlo : l.low < 0
  · have : l.low % 2^32 = l.low + 2^32 := by omega
    simp only [if_pos hlo]
    omega
  · have : l.low % 2^32 = l.low := Int.emod_eq_of_lt (by omega) (by omega)
    simp only [if_neg hlo]
    omega

theorem tmod_neg_left (a b : Int) : Int.tmod (-a) b = - Int.tmod a b := by
  simp only [Int.tmod_def, Int.neg_tdiv]
  ring

theorem tmod_bounds (x m : Int) (hm : 0 < m) :
    -m < Int.tmod x m ∧ Int.tmod x m < m := by
  rcases le_or_lt 0 x with hx | hx
  · have h1 := Int.tmod_nonneg m hx
    have h2 := Int.tmod_lt_of_pos x hm
    omega
  · have h3 : Int.tmod x m = - Int.tmod (-x) m := by
      rw [← tmod_neg_left, neg_neg]
    have h1 := Int.tmod_nonneg m (show (0:Int) ≤ -x by omega)
    have h2 := Int.tmod_lt_of_pos (-x) hm
    omega

theorem bigintToLong_toInt (x : Int) (h1 : -2^63 ≤ x) (h2 : x < 2^63) :
    (bigintToLong x).toInt = x := by
  unfold bigintToLong JsLong.toInt JsLong.make
  have hdecomp := Int.tmod_add_tdiv x (2 ^ 32)
  have hmodabs : -2^32 < Int.tmod x (2^32) ∧ Int.tmod x (2^32) < 2^32 :=
    tmod_bounds x (2^32) (by norm_num)
  set lo := Int.tmod x (2 ^ 32) with hlo
  set hi0 := Int.tdiv x (2 ^ 32) with hhi0
  have hhibound : -2^31 ≤ hi0 ∧ hi0 ≤ 2^31 := by constructor <;> nlinarith
  by_cases hneg : lo < 0
  · simp only [if_pos hneg]
    have hhi : toInt32 (hi0 + -1) = hi0 + -1 := by
      apply toInt32_of_range
      · -- hi0 ≥ -2^31 + 1 here: lo < 0 forces x < 0 and x > -2^63 + ... ;
        -- from x = lo + 2^32 * hi0, x ≥ -2^63, lo > -2^32 we get hi0 > -2^31 - 1 + 1/2^32
        nlinarith
      · omega
    rw [hhi]
    have hlo32 : toInt32 lo % 2^32 = lo % 2^32 := toInt32_emod lo
    have : lo % 2^32 = lo + 2^32 := by omega
    have hb := toInt32_bounds lo
    omega
  · simp only [if_neg hneg]
    have hhi : toInt32 hi0 = hi0 := by
      apply toInt32_of_range
      · omega
      · -- lo ≥ 0 and x < 2^63 force hi0 < 2^31
        nlinarith
    rw [hhi]
    have hlo32 : toInt32 lo % 2^32 = lo % 2^32 := toInt32_emod lo
    have : lo % 2^32 = lo := Int.emod_eq_of_lt (by omega) (by omega)
    have hb := toInt32_bounds lo
    omega

theorem JsLong.toInt_bounds (l : JsLong) (h : l.WF) : -2^63 ≤ l.toInt ∧ l.toInt < 2^63 := by
  obtain ⟨h1, h2, h3, h4⟩ := h
  unfold JsLong.toInt
  have : 0 ≤ l.low % 2^32 := Int.emod_nonneg _ (by norm_num)
  have : l.low % 2^32 < 2^32 := Int.emod_lt_of_pos _ (by norm_num)
  constructor <;> nlinarith

theorem bigintToLong_low_high (x : Int) (h1 : -2^63 ≤ x) (h2 : x < 2^63) :
    (bigintToLong x).low % 2^32 = x % 2^32 ∧
    (bigintToLong x).high = (x - (bigintToLong x).low % 2^32) / 2^32 := by
  have hv := bigintToLong_toInt x h1 h2
  have hwf : (bigintToLong x).WF := by
    unfold bigintToLong
    apply JsLong.make_wf
  obtain ⟨w1, w2, w3, w4⟩ := hwf
  unfold JsLong.toInt at hv
  constructor
  · omega
  · omega

theorem pow256_eq (n : Nat) : (256:Nat) ^ n = 2 ^ (8 * n) := by
  rw [show (256:Nat) = 2^8 from rfl, ← pow_mul]

set_option maxHeartbeats 1000000 in
theorem leadingOnes_eq (n : Nat) (hn : n ≤ 7) (w : Nat) (hw : w < 2^(7-n)) :
    leadingOnes (256 - 2^(8-n) + w) = n := by
  unfold leadingOnes
  interval_cases n <;> split_ifs <;> omega

theorem readUnsignedVInt_chunk (n : Nat) (hn : n ≤ 7) (v : Nat)
    (hv : v / 2^(8*n) < 2^(7-n)) (rest : List Nat) :
    readUnsignedVInt ((256 - 2^(8-n) + v / 2^(8*n)) :: (natToBytesBE n (v % 2^(8*n)) ++ rest))
      = some (v, rest) := by
  have hL := leadingOnes_eq n hn _ hv
  simp only [readUnsignedVInt, hL]
  have hne : ¬ (n = 8) := by omega
  simp only [if_neg hne]

  have hr : readBytesBE n (natToBytesBE n (v % 2^(8*n)) ++ rest)
      = some ((v % 2^(8*n)) % 256 ^ n, rest) := readBytesBE_append n _ rest
  rw [hr]
  have hmm : (v % 2^(8*n)) % 256 ^ n = v % 2^(8*n) := by
    rw [pow256_eq]
    exact Nat.mod_mod_of_dvd _ dvd_rfl
  rw [hmm]
  simp only [Option.some.injEq, Prod.mk.injEq]
  refine ⟨?_, trivial⟩
  rw [Nat.add_sub_cancel_left, Nat.mul_comm]
  exact Nat.div_add_mod v (2^(8*n))

theorem vintExtraBytes_bound (v : Nat) (h : vintExtraBytes v ≤ 7) :
    v < 2 ^ (7 * (vintExtraBytes v + 1)) := by
  unfold vintExtraBytes at *
  split_ifs at * <;> norm_num <;> omega

theorem readUnsignedVInt_writeUnsignedVInt (v : Nat) (h : v < 2^64) (rest : List Nat) :
    readUnsignedVInt (writeUnsignedVInt v ++ rest) = some (v, rest) := by
  by_cases h8 : vintExtraBytes v = 8
  · have hw : writeUnsignedVInt v = 255 :: natToBytesBE 8 v := by
      unfold writeUnsignedVInt
      simp [h8]
    rw [hw]
    simp only [List.cons_append, readUnsignedVInt, show leadingOnes 255 = 8 from by decide,
      if_pos rfl]
    rw [readBytesBE_append]
    simp only [show (256:Nat)^8 = 2^64 from by norm_num]
    rw [Nat.mod_eq_of_lt h]
    simp
  · have hn : vintExtraBytes v ≤ 7 := by
      unfold vintExtraBytes at *
      split_ifs at * <;> omega
    have hlt := vintExtraBytes_bound v hn
    set n := vintExtraBytes v with hdef
    have hdiv : v / 2^(8*n) < 2^(7-n) := by
      apply Nat.div_lt_of_lt_mul
      calc v < 2 ^ (7 * (n + 1)) := hlt
        _ ≤ 2^(8*n) * 2^(7-n) := by
            rw [← pow_add]
            apply Nat.pow_le_pow_right (by norm_num)
            omega
    have hw : writeUnsignedVInt v
        = (256 - 2^(8-n) + v / 2^(8*n)) :: natToBytesBE n (v % 2^(8*n)) := by
      unfold writeUnsignedVInt
      rw [← hdef]
      simp only [if_neg (show ¬ n = 8 by omega)]
    rw [hw]
    simp only [List.cons_append]
    exact readUnsignedVInt_chunk n hn v hdiv rest

theorem unzigzag_zigzag (x : Int) : unzigzag (zigzag x) = x := by
  unfold zigzag unzigzag
  by_cases hx : 0 ≤ x
  · simp only [if_pos hx]
    have h1 : ((2*x).toNat : Int) = 2*x := Int.toNat_of_nonneg (by omega)
    have h2 : (2*x).toNat % 2 = 0 := by omega
    simp only [if_pos h2]
    omega
  · simp only [if_neg hx]
    have h1 : ((-(2*x) - 1).toNat : Int) = -(2*x) - 1 := Int.toNat_of_nonneg (by omega)
    have h2 : (-(2*x) - 1).toNat % 2 = 1 := by omega
    simp only [h2]
    norm_num
    omega

theorem zigzag_lt (x : Int) (h1 : -2^63 ≤ x) (h2 : x < 2^63) : zigzag x < 2^64 := by
  unfold zigzag
  by_cases hx : 0 ≤ x
  · simp only [if_pos hx]; omega
  · simp only [if_neg hx]; omega

theorem readVInt_writeVInt (x : Int) (h1 : -2^63 ≤ x) (h2 : x < 2^63) (rest : List Nat) :
    readVInt (writeVInt x ++ rest) = some (x, rest) := by
  unfold readVInt writeVInt
  rw [readUnsignedVInt_writeUnsignedVInt _ (zigzag_lt x h1 h2)]
  simp [unzigzag_zigzag]

theorem bigintToLong_wf (x : Int) : (bigintToLong x).WF := by
  unfold bigintToLong
  apply JsLong.make_wf

theorem JsLong.toInt_inj (l1 l2 : JsLong) (h1 : l1.WF) (h2 : l2.WF)
    (h : l1.toInt = l2.toInt) : l1 = l2 := by
  obtain ⟨a1, a2, a3, a4⟩ := h1
  obtain ⟨b1, b2, b3, b4⟩ := h2
  unfold JsLong.toInt at h
  have m1 : l1.low % 2^32 = if l1.low < 0 then l1.low + 2^32 else l1.low := by
    split_ifs <;> omega
  have m2 : l2.low % 2^32 = if l2.low < 0 then l2.low + 2^32 else l2.low := by
    split_ifs <;> omega
  have hlow : l1.low = l2.low ∧ l1.high = l2.high := by
    split_ifs at m1 m2 <;> omega
  cases l1; cases l2
  simp_all

theorem readVInt_writeVInt_nil (x : Int) (h1 : -2^63 ≤ x) (h2 : x < 2^63) :
    readVInt (writeVInt x) = some (x, []) := by
  have h := readVInt_writeVInt x h1 h2 []
  rwa [List.append_nil] at h

theorem readBytesBE_append_nil (k v : Nat) :
    readBytesBE k (natToBytesBE k v) = some (v % 256 ^ k, []) := by
  have h := readBytesBE_append k v []
  rwa [List.append_nil] at h

theorem duration_fromBuffer_toBuffer (d : Duration)
    (hm1 : -2^31 ≤ d.months) (hm2 : d.months < 2^31)
    (hd1 : -2^31 ≤ d.days) (hd2 : d.days < 2^31)
    (hn1 : -2^63 ≤ d.nanoseconds) (hn2 : d.nanoseconds < 2^63) :
    Duration.fromBuffer d.toBuffer = some d := by
  unfold Duration.toBuffer Duration.fromBuffer
  have hns : (bigintToLong d.nanoseconds).toInt = d.nanoseconds :=
    bigintToLong_toInt d.nanoseconds hn1 hn2
  rw [hns]
  simp only [readVInt_writeVInt d.months (by omega) (by omega),
    readVInt_writeVInt d.days (by omega) (by omega),
    readVInt_writeVInt_nil d.nanoseconds (by omega) (by omega)]

theorem localTime_fromBuffer_toBuffer (t : LocalTime)
    (h1 : 0 ≤ t.value) (h2 : t.value ≤ localTimeMaxNanos) :
    LocalTime.fromBuffer t.toBuffer = .ok t := by
  unfold LocalTime.toBuffer LocalTime.fromBuffer
  unfold localTimeMaxNanos at h2
  have hv64 : t.value % 2^64 = t.value := Int.emod_eq_of_lt h1 (by omega)
  have hlo : t.value % 2^32 = t.value - 2^32 * (t.value / 2^32) := by
    rw [Int.emod_def]
  have hdivnn : 0 ≤ t.value / 2^32 := Int.ediv_nonneg h1 (by norm_num)
  have hdivlt : t.value / 2^32 < 2^31 := by
    apply Int.ediv_lt_of_lt_mul (by norm_num)
    omega
  have hlobounds : 0 ≤ t.value % 2^32 ∧ t.value % 2^32 < 2^32 :=
    ⟨Int.emod_nonneg _ (by norm_num), Int.emod_lt_of_pos _ (by norm_num)⟩
  rw [hv64]
  simp only [readBytesBE_append, readBytesBE_append_nil]
  have hhiNat : (t.value / 2^32).toNat % 256^4 = (t.value / 2^32).toNat := by
    apply Nat.mod_eq_of_lt
    have : ((t.value / 2^32).toNat : Int) < 2^31 := by
      rw [Int.toNat_of_nonneg hdivnn]
      exact hdivlt
    norm_num
    omega
  have hloNat : (t.value % 2^32).toNat % 256^4 = (t.value % 2^32).toNat := by
    apply Nat.mod_eq_of_lt
    have : ((t.value % 2^32).toNat : Int) < 2^32 := by
      rw [Int.toNat_of_nonneg hlobounds.1]
      exact hlobounds.2
    norm_num
    omega
  rw [hhiNat, hloNat]
  have hcreate : (JsLong.make (int32OfUint ((t.value % 2^32).toNat))
      (int32OfUint ((t.value / 2^32).toNat))).toInt = t.value := by
    unfold int32OfUint JsLong.make JsLong.toInt
    have e1 : (((t.value % 2^32).toNat : Int)) = t.value % 2^32 :=
      Int.toNat_of_nonneg hlobounds.1
    have e2 : (((t.value / 2^32).toNat : Int)) = t.value / 2^32 :=
      Int.toNat_of_nonneg hdivnn
    by_cases hsplit : 2^31 ≤ (t.value % 2^32).toNat
    · simp only [if_pos hsplit]
      have hhiIf : ¬ (2^31 ≤ (t.value / 2^32).toNat) := by omega
      simp only [if_neg hhiIf]
      have w1 : toInt32 ((((t.value % 2^32).toNat : Int)) - 2^32)
          = ((t.value % 2^32).toNat : Int) - 2^32 := by
        apply toInt32_of_range <;> omega
      have w2 : toInt32 (((t.value / 2^32).toNat : Int)) = ((t.value / 2^32).toNat : Int) := by
        apply toInt32_of_range <;> omega
      rw [w1, w2, e1, e2]
      have : (t.value % 2^32 - 2^32) % 2^32 = t.value % 2^32 := by omega
      rw [this]
      omega
    · simp only [if_neg hsplit]
      have hhiIf : ¬ (2^31 ≤ (t.value / 2^32).toNat) := by omega
      simp only [if_neg hhiIf]
      have w1 : toInt32 (((t.value % 2^32).toNat : Int)) = ((t.value % 2^32).toNat : Int) := by
        apply toInt32_of_range <;> omega
      have w2 : toInt32 (((t.value / 2^32).toNat : Int)) = ((t.value / 2^32).toNat : Int) := by
        apply toInt32_of_range <;> omega
      rw [w1, w2, e1, e2]
      have : (t.value % 2^32) % 2^32 = t.value % 2^32 := Int.emod_emod_of_dvd _ dvd_rfl
      rw [this]
      omega
  rw [hcreate]
  unfold LocalTime.create localTimeMaxNanos
  rw [if_neg (by omega)]

/-- Claim C8: constructing a `LocalTime` succeeds exactly when the
total-nanoseconds argument lies in `[0, 86_400_000_000_000)`; outside this
range the constructor rejects with an error and no instance is produced. -/
theorem claim_C8_localtime_constructor_range (n : Int) :
    ((∃ t, LocalTime.create n = .ok t) ↔ (0 ≤ n ∧ n < 86400000000000)) ∧
    (¬ (0 ≤ n ∧ n < 86400000000000) →
      LocalTime.create n = .error "Total nanoseconds out of range") := by
  unfold LocalTime.create localTimeMaxNanos
  constructor
  · constructor
    · intro ⟨t, ht⟩
      by_cases h : n < 0 ∨ n > 86399999999999
      · rw [if_pos h] at ht
        exact absurd ht (by simp)
      · omega
    · intro h
      rw [if_neg (by omega)]
      exact ⟨⟨n⟩, rfl⟩
  · intro h
    rw [if_pos (by omega)]

/-- Claim C9: `longToBigint` and `bigintToLong` are mutually inverse: the
first statement for every BigInt in `[-2^63, 2^63)`, the second for every
well-formed `Long`. -/
theorem claim_C9_long_bigint_mutually_inverse :
    (∀ x : Int, -2^63 ≤ x → x < 2^63 → longToBigint (bigintToLong x) = x) ∧
    (∀ l : JsLong, l.WF → bigintToLong (longToBigint l) = l) := by
  have fwd : ∀ x : Int, -2^63 ≤ x → x < 2^63 → longToBigint (bigintToLong x) = x := by
    intro x h1 h2
    rw [longToBigint_eq_toInt _ (bigintToLong_wf x), bigintToLong_toInt x h1 h2]
  refine ⟨fwd, ?_⟩
  intro l hwf
  have hval : longToBigint l = l.toInt := longToBigint_eq_toInt l hwf
  have hb := JsLong.toInt_bounds l hwf
  apply JsLong.toInt_inj _ _ (bigintToLong_wf _) hwf
  rw [hval]
  exact bigintToLong_toInt l.toInt hb.1 hb.2

/-- Witness for C9 at concrete inputs. -/
theorem claim_C9_witness :
    longToBigint (bigintToLong (-123456789012345)) = -123456789012345 ∧
    bigintToLong (longToBigint ⟨7, -3⟩) = ⟨7, -3⟩ :=
  ⟨claim_C9_long_bigint_mutually_inverse.1 (-123456789012345) (by norm_num) (by norm_num),
   claim_C9_long_bigint_mutually_inverse.2 ⟨7, -3⟩ (by constructor <;> norm_num)⟩

/-- Claim C3 counterexample: `read` with an explicit length larger than the
remaining bytes does not fail; it silently returns the remaining (truncated)
bytes, here a single byte instead of the requested five. -/
theorem claim_C3_counterexample :
    ((FrameReader.mk [7] 0).read (some 5)).1 = [7] ∧
    ((FrameReader.mk [7] 0).read (some 5)).1.length ≠ 5 := by
  constructor <;> decide

/-- Claim C3 (amended): `readInt` and `readBytes` fail with a `RangeError`
carrying the requested length whenever the request exceeds the remaining
bytes, and on success never return truncated data; `read` with an explicit
length exceeding the remainder instead reads to the buffer end. -/
theorem claim_C3_reader_bounds :
    (∀ r : FrameReader, r.offset + 4 > r.buf.length →
        r.readInt = .error ⟨4⟩) ∧
    (∀ (r r1 : FrameReader) (len : Int), r.readInt = .ok (len, r1) → 0 ≤ len →
        r1.offset + len.toNat > r1.buf.length →
        r.readBytes = .error ⟨len.toNat⟩) ∧
    (∀ (r r1 : FrameReader) (len : Int), r.readInt = .ok (len, r1) → 0 ≤ len →
        r1.offset + len.toNat ≤ r1.buf.length →
        ∃ bs r2, r.readBytes = .ok (some bs, r2) ∧ bs.length = len.toNat) ∧
    (∀ (r : FrameReader) (l : Nat), r.offset ≤ r.buf.length →
        ((r.read (some l)).1).length = min l (r.buf.length - r.offset)) := by
  have hread_len : ∀ (r : FrameReader) (l : Nat), r.offset ≤ r.buf.length →
      ((r.read (some l)).1).length = min l (r.buf.length - r.offset) := by
    intro r l h
    unfold FrameReader.read FrameReader.slice
    by_cases hc : r.offset + l < r.buf.length
    · simp only [if_pos hc, List.length_drop, List.length_take]
      omega
    · simp only [if_neg hc, List.length_drop, List.length_take]
      omega
  refine ⟨?_, ?_, ?_, hread_len⟩
  · intro r h
    unfold FrameReader.readInt FrameReader.checkOffset
    rw [if_pos h]
  · intro r r1 len hint hlen hover
    have hco : r1.checkOffset len.toNat = .error ⟨len.toNat⟩ := by
      unfold FrameReader.checkOffset
      rw [if_pos hover]
    unfold FrameReader.readBytes
    simp only [hint, if_neg (show ¬ len < 0 by omega), hco]
  · intro r r1 len hint hlen hfits
    have hco : r1.checkOffset len.toNat = .ok () := by
      unfold FrameReader.checkOffset
      rw [if_neg (by omega)]
    unfold FrameReader.readBytes
    simp only [hint, if_neg (show ¬ len < 0 by omega), hco]
    refine ⟨(r1.read (some len.toNat)).1, (r1.read (some len.toNat)).2, rfl, ?_⟩
    have hoff : r1.offset ≤ r1.buf.length := by omega
    rw [hread_len r1 len.toNat hoff]
    omega

/-- Witness for C3 at concrete readers: a 2-byte buffer makes `readInt`
fail carrying length 4; a buffer declaring 5 bytes but holding 1 makes
`readBytes` fail carrying length 5; a buffer declaring 1 byte holding it
returns exactly 1 byte; `read` clamps 5 to the single remaining byte. -/
theorem claim_C3_witness :
    (FrameReader.mk [0, 0] 0).readInt = .error ⟨4⟩ ∧
    (FrameReader.mk [0, 0, 0, 5, 1] 0).readBytes = .error ⟨5⟩ ∧
    (∃ bs r2, (FrameReader.mk [0, 0, 0, 1, 42] 0).readBytes = .ok (some bs, r2) ∧
        bs.length = 1) ∧
    ((FrameReader.mk [7] 0).read (some 5)).1.length = min 5 1 := by
  refine ⟨?_, ?_, ?_, ?_⟩
  · exact claim_C3_reader_bounds.1 ⟨[0, 0], 0⟩ (by decide)
  · exact claim_C3_reader_bounds.2.1 ⟨[0, 0, 0, 5, 1], 0⟩ ⟨[0, 0, 0, 5, 1], 4⟩ 5
      (by rfl) (by decide) (by decide)
  · exact claim_C3_reader_bounds.2.2.1 ⟨[0, 0, 0, 1, 42], 0⟩ ⟨[0, 0, 0, 1, 42], 4⟩ 1
      (by rfl) (by decide) (by decide)
  · exact claim_C3_reader_bounds.2.2.2 ⟨[7], 0⟩ 5 (by decide)

/-- Claim C4 counterexample: on a session that was never connected,
`shutdown()` returns early without marking the session as shutting down, so
a subsequent `connect()` call starts a fresh attempt instead of failing with
`NoHostAvailable`. -/
theorem claim_C4_counterexample :
    connectSync (shutdownRun ⟨false, false, false⟩) ≠ .failedNoHostAvailable ∧
    connectSync (shutdownRun ⟨false, false, false⟩)
      = .startAttempt ⟨false, true, false⟩ := by
  constructor <;> decide

/-- Claim C4 (amended): `connect()` on a connected session resolves
immediately; a concurrent caller during an in-flight attempt awaits that
attempt; a failed attempt resets the flags so the next `connect()` starts a
fresh attempt; and `connect()` after a `shutdown()` performed on a
*connected* session fails with `NoHostAvailable`. -/
theorem claim_C4_connect_lifecycle :
    (∀ s : ClientConnState, s.connected = true → connectSync s = .resolved) ∧
    (∀ s : ClientConnState, s.connected = false → s.isShuttingDown = false →
        s.connecting = true → connectSync s = .awaitInFlight) ∧
    (∀ s s' : ClientConnState, connectSync s = .startAttempt s' →
        connectSync (connectFailure s')
          = .startAttempt { connectFailure s' with connecting := true }) ∧
    (∀ s : ClientConnState, s.connected = true →
        connectSync (shutdownRun s) = .failedNoHostAvailable) := by
  decide

/-- Witness for C4 at concrete states. -/
theorem claim_C4_witness :
    connectSync ⟨true, false, false⟩ = .resolved ∧
    connectSync ⟨false, true, false⟩ = .awaitInFlight ∧
    connectSync (connectFailure ⟨false, true, false⟩)
      = .startAttempt ⟨false, true, false⟩ ∧
    connectSync (shutdownRun ⟨true, false, false⟩) = .failedNoHostAvailable := by
  refine ⟨?_, ?_, ?_, ?_⟩
  · exact claim_C4_connect_lifecycle.1 ⟨true, false, false⟩ rfl
  · exact claim_C4_connect_lifecycle.2.1 ⟨false, true, false⟩ rfl rfl rfl
  · exact claim_C4_connect_lifecycle.2.2.1 ⟨false, false, false⟩ ⟨false, true, false⟩
      (by decide)
  · exact claim_C4_connect_lifecycle.2.2.2 ⟨true, false, false⟩ rfl

/-- Witness for C8 at concrete inputs: the boundary value is rejected, a
valid value is accepted. -/
theorem claim_C8_witness :
    LocalTime.create 86400000000000 = .error "Total nanoseconds out of range" ∧
    (∃ t, LocalTime.create 12345 = .ok t) :=
  ⟨(claim_C8_localtime_constructor_range 86400000000000).2 (by norm_num),
   (claim_C8_localtime_constructor_range 12345).1.mpr ⟨by norm_num, by norm_num⟩⟩

/-- Claim C7: the query plan produced by `AllowListPolicy.newQueryPlan`
yields exactly the child-iterator hosts whose address is in the allow list,
in the child's order; a host outside the list is never yielded and gets
distance `ignored`. -/
theorem claim_C7_allowlist_filter :
    (∀ (al : List String) (hosts : List Host),
        allowListFilter al hosts = hosts.filter (fun h => allowListContains al h)) ∧
    (∀ (al : List String) (hosts : List Host) (h : Host),
        h ∈ allowListFilter al hosts → allowListContains al h = true ∧ h ∈ hosts) ∧
    (∀ (al : List String) (cd : Host → Distance) (h : Host),
        allowListContains al h = false → allowListGetDistance al cd h = .ignoredD) := by
  have hfilter : ∀ (al : List String) (hosts : List Host),
      allowListFilter al hosts = hosts.filter (fun h => allowListContains al h) := by
    intro al hosts
    induction hosts with
    | nil => rfl
    | cons h rest ih =>
        unfold allowListFilter
        rw [List.filter_cons]
        by_cases hc : allowListContains al h
        · rw [if_pos hc, if_pos hc, ih]
        · rw [if_neg hc, if_neg hc, ih]
  refine ⟨hfilter, ?_, ?_⟩
  · intro al hosts h hmem
    rw [hfilter] at hmem
    have := List.of_mem_filter hmem
    exact ⟨this, List.mem_of_mem_filter hmem⟩
  · intro al cd h hc
    unfold allowListGetDistance
    rw [if_pos (by simp [hc])]

/-- Witness for C7 at a concrete plan: hosts `a`, `b`, `c` filtered by the
allow list `[a, c]` yield `[a, c]` in child order; `b` gets `ignored`. -/
theorem claim_C7_witness :
    allowListFilter ["a:9042", "c:9042"] [⟨"a:9042"⟩, ⟨"b:9042"⟩, ⟨"c:9042"⟩]
      = List.filter (fun h => allowListContains ["a:9042", "c:9042"] h)
          [⟨"a:9042"⟩, ⟨"b:9042"⟩, ⟨"c:9042"⟩] ∧
    allowListGetDistance ["a:9042", "c:9042"] (fun _ => .localD) ⟨"b:9042"⟩ = .ignoredD :=
  ⟨claim_C7_allowlist_filter.1 ["a:9042", "c:9042"] [⟨"a:9042"⟩, ⟨"b:9042"⟩, ⟨"c:9042"⟩],
   claim_C7_allowlist_filter.2.2 ["a:9042", "c:9042"] (fun _ => .localD) ⟨"b:9042"⟩ (by decide)⟩

theorem eachRowAutoPage_append {ρ : Type} (ps : List (PageResult ρ)) (last : PageResult ρ)
    (hmid : ∀ p ∈ ps, p.pagingState.isSome) (hlast : last.pagingState = none)
    (accLen : Nat) (delivered : List ρ) :
    eachRowAutoPage (ps ++ [last]) accLen delivered
      = some (accLen + ((ps ++ [last]).map PageResult.rowLength).sum,
          delivered ++ ((ps ++ [last]).map PageResult.rows).flatten) := by
  induction ps generalizing accLen delivered with
  | nil =>
      simp [eachRowAutoPage, hlast]
  | cons p ps ih =>
      have hp : p.pagingState.isSome := hmid p (by simp)
      obtain ⟨st, hst⟩ := Option.isSome_iff_exists.mp hp
      simp only [List.cons_append, eachRowAutoPage, hst]
      rw [show (ps.append [last]) = ps ++ [last] from rfl,
        ih (fun q hq => hmid q (by simp [hq]))]
      simp only [List.map_cons, List.sum_cons, List.flatten_cons, Option.some.injEq,
        Prod.mk.injEq, List.append_assoc]
      exact ⟨by omega, trivial⟩

/-- Claim C6: under auto-paging, the rows delivered to the per-row callback
are exactly the concatenation of the rows of the fetched pages in order, and
the `rowLength` passed to the final callback is the sum of the pages'
`rowLength` values.  The page-response sequence consists of pages carrying a
paging state followed by a final page without one. -/
theorem claim_C6_eachrow_autopage {ρ : Type} (ps : List (PageResult ρ))
    (last : PageResult ρ)
    (hmid : ∀ p ∈ ps, p.pagingState.isSome) (hlast : last.pagingState = none) :
    eachRowAutoPage (ps ++ [last]) 0 []
      = some (((ps ++ [last]).map PageResult.rowLength).sum,
          ((ps ++ [last]).map PageResult.rows).flatten) := by
  rw [eachRowAutoPage_append ps last hmid hlast 0 []]
  simp

/-- Witness for C6 with two concrete pages of 2 and 1 rows. -/
theorem claim_C6_witness :
    eachRowAutoPage [⟨[10, 20], 2, some [1]⟩, ⟨[30], 1, none⟩] 0 []
      = some (3, [10, 20, 30]) := by
  have h := claim_C6_eachrow_autopage (ρ := Nat) [⟨[10, 20], 2, some [1]⟩]
    ⟨[30], 1, none⟩ (by intro p hp; simp at hp; subst hp; rfl) rfl
  simpa using h

theorem exceptMap_error_iff {ε α β : Type} (r : Except ε α) (f : α → β) :
    (∃ e, r.map f = .error e) ↔ ∃ e, r = .error e := by
  cases r <;> simp [Except.map]

theorem rustyBatchLoop_error_iff (p : Bool) (qs : List BatchElement) (i : Nat)
    (c : PreparedCacheJs) (t : Nat) :
    (∃ e, rustyBatchLoop p qs i c t = .error e) ↔ ∃ el ∈ qs, elementInvalid el = true := by
  induction qs generalizing i c t with
  | nil => simp [rustyBatchLoop]
  | cons el rest ih =>
      unfold rustyBatchLoop
      by_cases h1 : elementTruthy el = true
      · by_cases h2 : statementTruthy (elementStatement el) = true
        · rw [if_neg (by simp [h1]), if_neg (by simp [h2])]
          have hinv : elementInvalid el = false := by
            unfold elementInvalid
            rw [h1, h2]
            rfl
          simp only [exceptMap_error_iff, ih]
          constructor
          · intro ⟨q, hq, hv⟩
            exact ⟨q, List.mem_cons_of_mem _ hq, hv⟩
          · intro ⟨q, hq, hv⟩
            rcases List.mem_cons.mp hq with rfl | hq'
            · rw [hinv] at hv
              cases hv
            · exact ⟨q, hq', hv⟩
        · rw [if_neg (by simp [h1]),
            if_pos (by cases hb : statementTruthy (elementStatement el) <;> simp_all)]
          constructor
          · intro _
            refine ⟨el, by simp, ?_⟩
            unfold elementInvalid
            cases hb : statementTruthy (elementStatement el) <;> simp_all
          · intro _
            exact ⟨_, rfl⟩
      · rw [if_pos (by cases hb : elementTruthy el <;> simp_all)]
        constructor
        · intro _
          refine ⟨el, by simp, ?_⟩
          unfold elementInvalid
          cases hb : elementTruthy el <;> simp_all
        · intro _
          exact ⟨_, rfl⟩

/-- Claim C10: `Client.batch` fails with `ArgumentError` before executing
anything when the queries argument is not an array or is empty, and the
loop fails with `ArgumentError` exactly when some element is falsy or lacks
query text. -/
theorem claim_C10_batch_validation :
    (∀ (qs : List BatchElement) (p : Bool),
        rustyBatch false qs p = .error ⟨"Queries should be an Array"⟩) ∧
    (∀ p : Bool, rustyBatch true [] p = .error ⟨"Queries array should not be empty"⟩) ∧
    (∀ (qs : List BatchElement) (p : Bool), qs ≠ [] →
        ((∃ e, rustyBatch true qs p = .error e) ↔ ∃ el ∈ qs, elementInvalid el = true)) := by
  refine ⟨?_, ?_, ?_⟩
  · intro qs p
    rfl
  · intro p
    rfl
  · intro qs p hne
    have hlen : ¬ (qs.length = 0) := by
      simpa [List.length_eq_zero] using hne
    unfold rustyBatch
    rw [if_neg (by simp), if_neg hlen]
    rw [← rustyBatchLoop_error_iff p qs 0 [] 0]
    rcases hr : rustyBatchLoop p qs 0 [] 0 with e3 | ⟨stmts, cc, tt⟩ <;> simp [hr]

/-- Witness for C10: a non-array argument and an empty array fail with the
specific messages; an object element missing its query text makes the batch
fail; a batch of two valid string elements does not fail. -/
theorem claim_C10_witness :
    rustyBatch false [] true = .error ⟨"Queries should be an Array"⟩ ∧
    rustyBatch true [] false = .error ⟨"Queries array should not be empty"⟩ ∧
    (∃ e, rustyBatch true [.str "SELECT 1", .obj none] true = .error e) ∧
    ¬ (∃ e, rustyBatch true [.str "SELECT 1", .str "SELECT 2"] false = .error e) := by
  refine ⟨claim_C10_batch_validation.1 [] true, claim_C10_batch_validation.2.1 false, ?_, ?_⟩
  · exact (claim_C10_batch_validation.2.2 [.str "SELECT 1", .obj none] true (by simp)).mpr
      ⟨.obj none, by simp, by decide⟩
  · intro hex
    have hmem := (claim_C10_batch_validation.2.2 [.str "SELECT 1", .str "SELECT 2"] false
      (by simp)).mp hex
    obtain ⟨el, hel, hinv⟩ := hmem
    rcases List.mem_cons.mp hel with rfl | hel'
    · exact absurd hinv (by decide)
    · rcases List.mem_cons.mp hel' with rfl | h
      · exact absurd hinv (by decide)
      · simp at h

theorem lruInsert_invariant (cap : Nat) (cache : List String) (key : String)
    (h1 : cache.Nodup) (h2 : cache.length ≤ cap) :
    (lruInsert cap cache key).Nodup ∧ (lruInsert cap cache key).length ≤ cap := by
  unfold lruInsert
  by_cases hm : key ∈ cache
  · rw [if_pos hm]
    refine ⟨List.Nodup.cons (h1.not_mem_erase) (h1.erase key), ?_⟩
    have := cache.length_erase_of_mem hm
    have hpos : 1 ≤ cache.length := List.length_pos.mpr (by rintro rfl; simp at hm)
    simp only [List.length_cons]
    omega
  · rw [if_neg hm]
    constructor
    · exact List.Nodup.sublist (List.take_sublist cap (key :: cache)) (List.Nodup.cons hm h1)
    · simp only [List.length_take]
      omega

theorem lruOfList_invariant (cap : Nat) (ops : List String) :
    (lruOfList cap ops).Nodup ∧ (lruOfList cap ops).length ≤ cap := by
  have general : ∀ (init : List String), init.Nodup → init.length ≤ cap →
      (ops.foldl (lruInsert cap) init).Nodup ∧
        (ops.foldl (lruInsert cap) init).length ≤ cap := by
    induction ops with
    | nil => intro init hn hl; exact ⟨hn, hl⟩
    | cons op rest ih =>
        intro init hn hl
        have hstep := lruInsert_invariant cap init op hn hl
        exact ih (lruInsert cap init op) hstep.1 hstep.2
  exact general [] List.nodup_nil (by simp)

theorem cacheInsertAll_mem (ss : List String) (c : PreparedCacheJs) (a : String) :
    a ∈ cacheInsertAll c ss ↔ a ∈ c ∨ a ∈ ss := by
  induction ss generalizing c with
  | nil => simp [cacheInsertAll]
  | cons st rest ih =>
      unfold cacheInsertAll
      rw [ih]
      by_cases hm : cacheGet c st = true
      · have : st ∈ c := by simpa [cacheGet] using hm
        rw [if_pos hm]
        constructor
        · rintro (h | h)
          · exact Or.inl h
          · exact Or.inr (List.mem_cons_of_mem _ h)
        · rintro (h | h)
          · exact Or.inl h
          · rcases List.mem_cons.mp h with rfl | h'
            · exact Or.inl this
            · exact Or.inr h'
      · rw [if_neg hm]
        unfold cacheStore
        simp only [List.mem_cons]
        constructor
        · rintro ((rfl | h) | h)
          · exact Or.inr (Or.inl rfl)
          · exact Or.inl h
          · exact Or.inr (Or.inr h)
        · rintro (h | rfl | h)
          · exact Or.inl (Or.inr h)
          · exact Or.inl (Or.inl rfl)
          · exact Or.inr h

theorem cacheInsertAll_nodup (ss : List String) (c : PreparedCacheJs) (h : c.Nodup) :
    (cacheInsertAll c ss).Nodup := by
  induction ss generalizing c with
  | nil => exact h
  | cons st rest ih =>
      unfold cacheInsertAll
      by_cases hm : cacheGet c st = true
      · rw [if_pos hm]
        exact ih c h
      · rw [if_neg hm]
        apply ih
        unfold cacheStore
        exact h.cons (by simpa [cacheGet] using hm)

theorem cacheInsertAll_length_le (ss : List String) (c : PreparedCacheJs) :
    c.length ≤ (cacheInsertAll c ss).length := by
  induction ss generalizing c with
  | nil => exact le_refl _
  | cons st rest ih =>
      unfold cacheInsertAll
      by_cases hm : cacheGet c st = true
      · rw [if_pos hm]
        exact ih c
      · rw [if_neg hm]
        have := ih (cacheStore c st)
        unfold cacheStore at this ⊢
        simp only [List.length_cons] at this
        omega

theorem elementInvalid_false (el : BatchElement) (h : elementInvalid el = false) :
    elementTruthy el = true ∧ statementTruthy (elementStatement el) = true := by
  unfold elementInvalid at h
  cases h1 : elementTruthy el <;> cases h2 : statementTruthy (elementStatement el) <;>
    simp_all

theorem rustyBatchLoop_ok (qs : List BatchElement)
    (hval : ∀ el ∈ qs, elementInvalid el = false) (i : Nat) (c : PreparedCacheJs) (t : Nat) :
    rustyBatchLoop true qs i c t
      = .ok (qs.map elStmt, cacheInsertAll c (qs.map elStmt),
          t + ((cacheInsertAll c (qs.map elStmt)).length - c.length)) := by
  induction qs generalizing i c t with
  | nil => simp [rustyBatchLoop, cacheInsertAll]
  | cons el rest ih =>
      have hv := elementInvalid_false el (hval el (by simp))
      have hrest : ∀ q ∈ rest, elementInvalid q = false :=
        fun q hq => hval q (List.mem_cons_of_mem _ hq)
      unfold rustyBatchLoop
      rw [if_neg (by simp [hv.1]), if_neg (by simp [hv.2])]
      simp only [List.map_cons, cacheInsertAll]
      by_cases hm : cacheGet c (elStmt el) = true
      · have hrw := ih hrest (i+1) c t
        simp [hm, hrw, Except.map]
      · have hm' : cacheGet c (elStmt el) = false := by
          cases hx : cacheGet c (elStmt el) <;> simp_all
        have hrw := ih hrest (i+1) (cacheStore c (elStmt el)) (t+1)
        have hle := cacheInsertAll_length_le (rest.map elStmt) (cacheStore c (elStmt el))
        simp only [cacheStore, List.length_cons] at hle hrw
        simp [hm', hrw, Except.map, cacheStore]
        omega

/-- Claim C5: the session-level prepared cache (modelled from the spec)
holds pairwise-distinct query texts and never exceeds the `maxPrepared`
capacity (512 by default); and the per-batch preparation loop of
`Client.#rustyBatch` prepares each distinct query text exactly once: its
cache ends with exactly the batch's distinct texts, each occurring once,
and the number of server round-trips equals that cache's size. -/
theorem claim_C5_prepared_cache_bounds :
    (∀ ops : List String, (lruOfList maxPreparedDefault ops).Nodup ∧
        (lruOfList maxPreparedDefault ops).length ≤ 512) ∧
    (∀ qs : List BatchElement, (∀ el ∈ qs, elementInvalid el = false) →
        ∃ finalCache trips,
          rustyBatchLoop true qs 0 [] 0 = .ok (qs.map elStmt, finalCache, trips) ∧
          finalCache.Nodup ∧ (∀ s, s ∈ finalCache ↔ s ∈ qs.map elStmt) ∧
          trips = finalCache.length) := by
  constructor
  · intro ops
    exact lruOfList_invariant maxPreparedDefault ops
  · intro qs hval
    refine ⟨cacheInsertAll [] (qs.map elStmt),
      (cacheInsertAll [] (qs.map elStmt)).length, ?_, ?_, ?_, ?_⟩
    · have h := rustyBatchLoop_ok qs hval 0 [] 0
      simpa using h
    · exact cacheInsertAll_nodup _ [] List.nodup_nil
    · intro s
      rw [cacheInsertAll_mem]
      simp
    · simp

/-- Witness for C5: three prepare operations with a duplicate text leave
the session cache with two distinct entries; a prepared batch of three
statements with a duplicate performs exactly two round-trips. -/
theorem claim_C5_witness :
    ((lruOfList maxPreparedDefault ["q1", "q2", "q1"]).Nodup ∧
      (lruOfList maxPreparedDefault ["q1", "q2", "q1"]).length ≤ 512) ∧
    (∃ finalCache trips,
        rustyBatchLoop true [.str "q1", .str "q2", .str "q1"] 0 [] 0
          = .ok (["q1", "q2", "q1"], finalCache, trips) ∧
        finalCache.Nodup ∧
        (∀ s, s ∈ finalCache ↔ s ∈ ["q1", "q2", "q1"]) ∧
        trips = finalCache.length) := by
  constructor
  · exact claim_C5_prepared_cache_bounds.1 ["q1", "q2", "q1"]
  · have h := claim_C5_prepared_cache_bounds.2 [.str "q1", .str "q2", .str "q1"]
      (by intro el hel; fin_cases hel <;> decide)
    simpa [elStmt, elementStatement] using h

theorem tok_nonneg (t : Nat × DurUnit) :
    0 ≤ tokMonths t ∧ 0 ≤ tokDays t ∧ 0 ≤ tokNanos t := by
  obtain ⟨v, u⟩ := t
  cases u <;> simp [tokMonths, tokDays, tokNanos]

theorem builderAdd_ok (b : DurBuilder) (tok : Nat × DurUnit)
    (hord : b.unitIndex < unitIndexOf tok.2)
    (hm0 : 0 ≤ b.months) (hd0 : 0 ≤ b.days) (hn0 : 0 ≤ b.nanoseconds)
    (hM : b.months + tokMonths tok ≤ maxInt32)
    (hD : b.days + tokDays tok ≤ maxInt32)
    (hN : b.nanoseconds + tokNanos tok ≤ longMaxValue) :
    builderAdd b tok = .ok ⟨b.isNegative, unitIndexOf tok.2,
      b.months + tokMonths tok, b.days + tokDays tok, b.nanoseconds + tokNanos tok⟩ := by
  obtain ⟨v, u⟩ := tok
  have hv : (0:Int) ≤ (v:Int) := Int.ofNat_nonneg v
  cases u <;>
    simp only [builderAdd, unitIndexOf, tokMonths, tokDays, tokNanos,
      maxInt32, longMaxValue] at hord hM hD hN ⊢ <;>
    rw [if_neg (by omega), if_neg (by omega)] <;>
    first
    | (rw [Int.tdiv_eq_ediv (by omega) (by norm_num)]
       rw [if_neg (by omega)]
       simp)
    | (rw [if_neg (by omega)]
       simp)

theorem builder_foldlM (L : List (Nat × DurUnit)) (b : DurBuilder)
    (hord : (L.map (fun t => unitIndexOf t.2)).Pairwise (· < ·))
    (hgt : ∀ t ∈ L, b.unitIndex < unitIndexOf t.2)
    (hm0 : 0 ≤ b.months) (hd0 : 0 ≤ b.days) (hn0 : 0 ≤ b.nanoseconds)
    (hM : b.months + (L.map tokMonths).sum ≤ maxInt32)
    (hD : b.days + (L.map tokDays).sum ≤ maxInt32)
    (hN : b.nanoseconds + (L.map tokNanos).sum ≤ longMaxValue) :
    ∃ u, L.foldlM builderAdd b = .ok ⟨b.isNegative, u,
      b.months + (L.map tokMonths).sum, b.days + (L.map tokDays).sum,
      b.nanoseconds + (L.map tokNanos).sum⟩ := by
  induction L generalizing b with
  | nil =>
      refine ⟨b.unitIndex, ?_⟩
      simp only [List.map_nil, List.sum_nil, Int.add_zero, List.foldlM_nil]
      rfl
  | cons t L ih =>
      have hsumM : 0 ≤ (L.map tokMonths).sum :=
        List.sum_nonneg (by rintro x hx; obtain ⟨q, hq, rfl⟩ := List.mem_map.mp hx
                            exact (tok_nonneg q).1)
      have hsumD : 0 ≤ (L.map tokDays).sum :=
        List.sum_nonneg (by rintro x hx; obtain ⟨q, hq, rfl⟩ := List.mem_map.mp hx
                            exact (tok_nonneg q).2.1)
      have hsumN : 0 ≤ (L.map tokNanos).sum :=
        List.sum_nonneg (by rintro x hx; obtain ⟨q, hq, rfl⟩ := List.mem_map.mp hx
                            exact (tok_nonneg q).2.2)
      have htn := tok_nonneg t
      simp only [List.map_cons, List.sum_cons] at hM hD hN
      have hstep := builderAdd_ok b t (hgt t (by simp)) hm0 hd0 hn0
        (by omega) (by omega) (by omega)
      simp only [List.map_cons, List.pairwise_cons] at hord
      obtain ⟨u', hu⟩ := ih ⟨b.isNegative, unitIndexOf t.2,
          b.months + tokMonths t, b.days + tokDays t, b.nanoseconds + tokNanos t⟩
        hord.2
        (by intro q hq
            exact hord.1 _ (List.mem_map_of_mem _ hq))
        (by simp; omega) (by simp; omega) (by simp; omega)
        (by simp; omega) (by simp; omega) (by simp; omega)
      refine ⟨u', ?_⟩
      rw [List.foldlM_cons, hstep]
      simp only [List.map_cons, List.sum_cons]
      have hbind : (Except.ok (⟨b.isNegative, unitIndexOf t.2,
          b.months + tokMonths t, b.days + tokDays t,
          b.nanoseconds + tokNanos t⟩ : DurBuilder) >>= fun b' => L.foldlM builderAdd b')
          = L.foldlM builderAdd ⟨b.isNegative, unitIndexOf t.2,
              b.months + tokMonths t, b.days + tokDays t, b.nanoseconds + tokNanos t⟩ := rfl
      rw [hbind, hu]
      simp only [Except.ok.injEq, DurBuilder.mk.injEq]
      refine ⟨trivial, trivial, by omega, by omega, by omega⟩

theorem i64wrap_of_range (x : Int) (h1 : -2^63 ≤ x) (h2 : x < 2^63) : i64wrap x = x := by
  unfold i64wrap
  have : (x + 2^63) % 2^64 = x + 2^63 := Int.emod_eq_of_lt (by omega) (by omega)
  omega

theorem append64step_units (dd K : Int) (u : DurUnit) :
    ∀ t ∈ (append64step dd K u).1, t.2 = u := by
  unfold append64step
  split_ifs <;> simp

theorem append64step_sum (dd K : Int) (u : DurUnit) (hd : 0 ≤ dd) (hK : 0 < K)
    (hu : ∀ v : Nat, tokNanos (v, u) = v * K) :
    (((append64step dd K u).1).map tokNanos).sum + (append64step dd K u).2 = dd ∧
    0 ≤ (append64step dd K u).2 := by
  unfold append64step
  split_ifs with hc
  · simpa using hd
  · push_neg at hc
    simp only [List.map_cons, List.map_nil, List.sum_cons, List.sum_nil, hu]
    rw [Int.tdiv_eq_ediv hd hK.le, Int.tmod_eq_emod hd hK.le]
    have h1 : 0 ≤ dd / K := Int.ediv_nonneg hd hK.le
    have h2 : ((dd / K).toNat : Int) = dd / K := Int.toNat_of_nonneg h1
    have h4 := Int.emod_nonneg dd (ne_of_gt hK)
    refine ⟨?_, h4⟩
    rw [h2, add_zero]
    exact Int.ediv_add_emod' dd K

theorem append64step_r_nanos (dd : Int) (hd : 0 ≤ dd) :
    (append64step dd 1 .nanos).2 = 0 := by
  unfold append64step
  split_ifs with hc
  · omega
  · simp [Int.tmod_one]

theorem durationNanoTokens_sum (n : Int) (h : 0 ≤ n) :
    ((durationNanoTokens n).map tokNanos).sum = n := by
  unfold durationNanoTokens
  simp only [List.map_append, List.sum_append]
  have h1 := append64step_sum n 3600000000000 .hours h (by norm_num) (fun v => rfl)
  have h2 := append64step_sum (append64step n 3600000000000 .hours).2 60000000000 .minutes
    h1.2 (by norm_num) (fun v => rfl)
  have h3 := append64step_sum
    (append64step (append64step n 3600000000000 .hours).2 60000000000 .minutes).2
    1000000000 .seconds h2.2 (by norm_num) (fun v => rfl)
  have h4 := append64step_sum
    (append64step (append64step (append64step n 3600000000000 .hours).2 60000000000
      .minutes).2 1000000000 .seconds).2 1000000 .millis h3.2 (by norm_num) (fun v => rfl)
  have h5 := append64step_sum
    (append64step (append64step (append64step (append64step n 3600000000000 .hours).2
      60000000000 .minutes).2 1000000000 .seconds).2 1000000 .millis).2 1000 .micros
    h4.2 (by norm_num) (fun v => rfl)
  have h6 := append64step_sum
    (append64step (append64step (append64step (append64step (append64step n
      3600000000000 .hours).2 60000000000 .minutes).2 1000000000 .seconds).2 1000000
      .millis).2 1000 .micros).2 1 .nanos h5.2 (by norm_num) (fun v => by simp [tokNanos])
  have hr6 := append64step_r_nanos
    (append64step (append64step (append64step (append64step (append64step n
      3600000000000 .hours).2 60000000000 .minutes).2 1000000000 .seconds).2 1000000
      .millis).2 1000 .micros).2 h5.2
  omega

theorem durationNanoTokens_mem_units (n : Int) (t : Nat × DurUnit)
    (h : t ∈ durationNanoTokens n) :
    t.2 = .hours ∨ t.2 = .minutes ∨ t.2 = .seconds ∨ t.2 = .millis ∨ t.2 = .micros ∨
      t.2 = .nanos := by
  unfold durationNanoTokens at h
  simp only [List.mem_append] at h
  rcases h with ((((h | h) | h) | h) | h) | h
  · exact Or.inl (append64step_units _ _ _ t h)
  · exact Or.inr (Or.inl (append64step_units _ _ _ t h))
  · exact Or.inr (Or.inr (Or.inl (append64step_units _ _ _ t h)))
  · exact Or.inr (Or.inr (Or.inr (Or.inl (append64step_units _ _ _ t h))))
  · exact Or.inr (Or.inr (Or.inr (Or.inr (Or.inl (append64step_units _ _ _ t h)))))
  · exact Or.inr (Or.inr (Or.inr (Or.inr (Or.inr (append64step_units _ _ _ t h)))))

theorem durationNanoTokens_tokMonths_zero (n : Int) :
    ((durationNanoTokens n).map tokMonths).sum = 0 := by
  apply List.sum_eq_zero
  intro x hx
  obtain ⟨t, ht, rfl⟩ := List.mem_map.mp hx
  obtain ⟨v, u⟩ := t
  rcases durationNanoTokens_mem_units n (v, u) ht with h | h | h | h | h | h <;>
    (simp at h; subst h; rfl)

theorem durationNanoTokens_tokDays_zero (n : Int) :
    ((durationNanoTokens n).map tokDays).sum = 0 := by
  apply List.sum_eq_zero
  intro x hx
  obtain ⟨t, ht, rfl⟩ := List.mem_map.mp hx
  obtain ⟨v, u⟩ := t
  rcases durationNanoTokens_mem_units n (v, u) ht with h | h | h | h | h | h <;>
    (simp at h; subst h; rfl)

theorem append64step_idx_sublist (dd K : Int) (u : DurUnit) :
    ((append64step dd K u).1.map (fun t => unitIndexOf t.2)).Sublist [unitIndexOf u] := by
  unfold append64step
  split_ifs <;> simp

theorem durationNanoTokens_idx_sublist (n : Int) :
    ((durationNanoTokens n).map (fun t => unitIndexOf t.2)).Sublist [5, 6, 7, 8, 9, 10] := by
  unfold durationNanoTokens
  simp only [List.map_append]
  have h1 := append64step_idx_sublist n 3600000000000 .hours
  have h2 := append64step_idx_sublist (append64step n 3600000000000 .hours).2
    60000000000 .minutes
  have h3 := append64step_idx_sublist
    (append64step (append64step n 3600000000000 .hours).2 60000000000 .minutes).2
    1000000000 .seconds
  have h4 := append64step_idx_sublist
    (append64step (append64step (append64step n 3600000000000 .hours).2 60000000000
      .minutes).2 1000000000 .seconds).2 1000000 .millis
  have h5 := append64step_idx_sublist
    (append64step (append64step (append64step (append64step n 3600000000000 .hours).2
      60000000000 .minutes).2 1000000000 .seconds).2 1000000 .millis).2 1000 .micros
  have h6 := append64step_idx_sublist
    (append64step (append64step (append64step (append64step (append64step n
      3600000000000 .hours).2 60000000000 .minutes).2 1000000000 .seconds).2 1000000
      .millis).2 1000 .micros).2 1 .nanos
  simpa using ((((h1.append h2).append h3).append h4).append h5).append h6

theorem durationToString_spec (m dy ns : Int) (h1 : -2^63 ≤ ns) (h2 : ns < 2^63) :
    durationToString ⟨m, dy, ns⟩ =
      ((decide (m < 0) || decide (dy < 0) || decide (ns < 0)),
        (if m.natAbs = 0 ∨ m.natAbs < 12 then []
         else [((2 * m.natAbs + 12) / 24, DurUnit.years)]) ++
        (if (if m.natAbs = 0 ∨ m.natAbs < 12 then m.natAbs else m.natAbs % 12) = 0 ∨
             (if m.natAbs = 0 ∨ m.natAbs < 12 then m.natAbs else m.natAbs % 12) < 1 then
            ([] : List (Nat × DurUnit))
          else [((if m.natAbs = 0 ∨ m.natAbs < 12 then m.natAbs else m.natAbs % 12),
                 DurUnit.months)]) ++
        (if dy.natAbs = 0 ∨ dy.natAbs < 1 then [] else [(dy.natAbs, DurUnit.days)]) ++
        (if ns = 0 then []
         else durationNanoTokens (if ns < 0 then i64wrap (-ns) else ns))) := by
  simp only [durationToString, bigintToLong_toInt ns h1 h2]

set_option maxHeartbeats 1000000 in
/-- Claim C2 (amended): for every printable `Duration` — one whose months,
days and nanoseconds do not mix signs, whose months and days fit in 32 bits,
whose nanoseconds exceed the minimal 64-bit value, and whose months
magnitude does not trigger the rounded years figure (`|months| < 12` or
`|months| mod 12 < 6`) — parsing the rendered text form returns an equal
duration, and the rendered form is negative exactly when months, days and
nanoseconds are all `≤ 0` with at least one nonzero. -/
theorem claim_C2_duration_string_roundtrip (m dy ns : Int)
    (hP : (0 ≤ m ∧ 0 ≤ dy ∧ 0 ≤ ns) ∨ (m ≤ 0 ∧ dy ≤ 0 ∧ ns ≤ 0))
    (hm : m.natAbs ≤ 2^31 - 1) (hd : dy.natAbs ≤ 2^31 - 1)
    (hn1 : -2^63 < ns) (hn2 : ns < 2^63)
    (hround : m.natAbs < 12 ∨ m.natAbs % 12 < 6) :
    durationFromString (durationToString ⟨m, dy, ns⟩) = .ok ⟨m, dy, ns⟩ ∧
    ((durationToString ⟨m, dy, ns⟩).1 = true ↔
      (m ≤ 0 ∧ dy ≤ 0 ∧ ns ≤ 0 ∧ ¬(m = 0 ∧ dy = 0 ∧ ns = 0))) := by
  rw [durationToString_spec m dy ns (by omega) hn2]
  set am := m.natAbs with ham
  set ad := dy.natAbs with had
  set rem := (if am = 0 ∨ am < 12 then am else am % 12) with hrem
  set A := (if am = 0 ∨ am < 12 then ([] : List (Nat × DurUnit))
    else [((2 * am + 12) / 24, DurUnit.years)]) with hA
  set B := (if rem = 0 ∨ rem < 1 then ([] : List (Nat × DurUnit))
    else [(rem, DurUnit.months)]) with hB
  set C := (if ad = 0 ∨ ad < 1 then ([] : List (Nat × DurUnit))
    else [(ad, DurUnit.days)]) with hC
  set nsA := (if ns < 0 then i64wrap (-ns) else ns) with hnsA
  set D := (if ns = 0 then ([] : List (Nat × DurUnit))
    else durationNanoTokens nsA) with hD
  have hnsAeq : nsA = (ns.natAbs : Int) := by
    rw [hnsA]
    split_ifs with hneg
    · rw [i64wrap_of_range (-ns) (by omega) (by omega)]
      omega
    · omega
  have hnsA_nonneg : 0 ≤ nsA := by omega
  have hSM : ((A.map tokMonths).sum + (B.map tokMonths).sum) = (am : Int) := by
    rw [hA, hB, hrem]
    by_cases hc : am = 0 ∨ am < 12
    · simp only [if_pos hc]
      by_cases hz : am = 0 ∨ am < 1
      · simp only [if_pos hz]
        simp only [List.map_nil, List.sum_nil, add_zero]
        omega
      · simp only [if_neg hz]
        simp [tokMonths]
    · simp only [if_neg hc]
      push_neg at hc
      have hr6 : am % 12 < 6 := by omega
      have hy : (2 * am + 12) / 24 = am / 12 := by omega
      by_cases hz : am % 12 = 0 ∨ am % 12 < 1
      · simp only [if_pos hz]
        simp only [List.map_cons, List.map_nil, List.sum_cons, List.sum_nil, tokMonths, hy]
        push_cast
        omega
      · simp only [if_neg hz]
        simp only [List.map_cons, List.map_nil, List.sum_cons, List.sum_nil, tokMonths, hy]
        push_cast
        omega
  have hAunits : ∀ t ∈ A, t.2 = DurUnit.years := by
    rw [hA]; split_ifs <;> simp
  have hBunits : ∀ t ∈ B, t.2 = DurUnit.months := by
    rw [hB]; split_ifs <;> simp
  have hCunits : ∀ t ∈ C, t.2 = DurUnit.days := by
    rw [hC]; split_ifs <;> simp
  have hSD : (C.map tokDays).sum = (ad : Int) := by
    rw [hC]
    by_cases hz : ad = 0 ∨ ad < 1
    · simp only [if_pos hz]
      simp only [List.map_nil, List.sum_nil]
      omega
    · simp only [if_neg hz]
      simp [tokDays]
  have hSN : (D.map tokNanos).sum = nsA := by
    rw [hD]
    by_cases hz : ns = 0
    · simp only [if_pos hz]
      simp only [List.map_nil, List.sum_nil]
      omega
    · simp only [if_neg hz]
      exact durationNanoTokens_sum nsA hnsA_nonneg
  have zeroM_of_unit : ∀ (L : List (Nat × DurUnit)) (u : DurUnit), u ≠ DurUnit.years →
      u ≠ DurUnit.months → (∀ t ∈ L, t.2 = u) → (L.map tokMonths).sum = 0 := by
    intro L u hu1 hu2 hL
    apply List.sum_eq_zero
    intro x hx
    obtain ⟨t, ht, rfl⟩ := List.mem_map.mp hx
    obtain ⟨v, w⟩ := t
    have hw : w = u := by simpa using hL (v, w) ht
    cases u <;> simp_all [tokMonths]
  have zeroD_of_unit : ∀ (L : List (Nat × DurUnit)) (u : DurUnit), u ≠ DurUnit.weeks →
      u ≠ DurUnit.days → (∀ t ∈ L, t.2 = u) → (L.map tokDays).sum = 0 := by
    intro L u hu1 hu2 hL
    apply List.sum_eq_zero
    intro x hx
    obtain ⟨t, ht, rfl⟩ := List.mem_map.mp hx
    obtain ⟨v, w⟩ := t
    have hw : w = u := by simpa using hL (v, w) ht
    cases u <;> simp_all [tokDays]
  have zeroN_of_unit : ∀ (L : List (Nat × DurUnit)) (u : DurUnit),
      u = DurUnit.years ∨ u = DurUnit.months ∨ u = DurUnit.weeks ∨ u = DurUnit.days →
      (∀ t ∈ L, t.2 = u) → (L.map tokNanos).sum = 0 := by
    intro L u hu hL
    apply List.sum_eq_zero
    intro x hx
    obtain ⟨t, ht, rfl⟩ := List.mem_map.mp hx
    obtain ⟨v, w⟩ := t
    have hw : w = u := by simpa using hL (v, w) ht
    rcases hu with rfl | rfl | rfl | rfl <;> simp_all [tokNanos]
  have hDm : (D.map tokMonths).sum = 0 := by
    rw [hD]
    by_cases hz : ns = 0
    · simp [if_pos hz]
    · simp only [if_neg hz]
      exact durationNanoTokens_tokMonths_zero nsA
  have hDd : (D.map tokDays).sum = 0 := by
    rw [hD]
    by_cases hz : ns = 0
    · simp [if_pos hz]
    · simp only [if_neg hz]
      exact durationNanoTokens_tokDays_zero nsA
  have hTM : (((A ++ B ++ C ++ D)).map tokMonths).sum = (am : Int) := by
    simp only [List.map_append, List.sum_append]
    rw [zeroM_of_unit C DurUnit.days (by simp) (by simp) hCunits, hDm]
    omega
  have hTD : (((A ++ B ++ C ++ D)).map tokDays).sum = (ad : Int) := by
    simp only [List.map_append, List.sum_append]
    rw [zeroD_of_unit A DurUnit.years (by simp) (by simp) hAunits,
      zeroD_of_unit B DurUnit.months (by simp) (by simp) hBunits, hSD, hDd]
    omega
  have hTN : (((A ++ B ++ C ++ D)).map tokNanos).sum = nsA := by
    simp only [List.map_append, List.sum_append]
    rw [zeroN_of_unit A DurUnit.years (by simp) hAunits,
      zeroN_of_unit B DurUnit.months (by simp) hBunits,
      zeroN_of_unit C DurUnit.days (by simp) hCunits, hSN]
    omega
  have hsub : (((A ++ B ++ C ++ D)).map (fun t => unitIndexOf t.2)).Sublist
      [1, 2, 4, 5, 6, 7, 8, 9, 10] := by
    simp only [List.map_append]
    have sA : (A.map (fun t => unitIndexOf t.2)).Sublist [1] := by
      rw [hA]; split_ifs <;> simp [unitIndexOf]
    have sB : (B.map (fun t => unitIndexOf t.2)).Sublist [2] := by
      rw [hB]; split_ifs <;> simp [unitIndexOf]
    have sC : (C.map (fun t => unitIndexOf t.2)).Sublist [4] := by
      rw [hC]; split_ifs <;> simp [unitIndexOf]
    have sD : (D.map (fun t => unitIndexOf t.2)).Sublist [5, 6, 7, 8, 9, 10] := by
      rw [hD]
      split_ifs
      · simp
      · exact durationNanoTokens_idx_sublist nsA
    simpa using ((sA.append sB).append sC).append sD
  have hpair : (((A ++ B ++ C ++ D)).map (fun t => unitIndexOf t.2)).Pairwise (· < ·) :=
    List.Pairwise.sublist hsub (by decide)
  have hposidx : ∀ u : DurUnit, 0 < unitIndexOf u := by
    intro u; cases u <;> simp [unitIndexOf]
  obtain ⟨u, hfold⟩ := builder_foldlM (A ++ B ++ C ++ D)
    ⟨(decide (m < 0) || decide (dy < 0) || decide (ns < 0)), 0, 0, 0, 0⟩
    hpair (fun t _ => hposidx t.2) (le_refl 0) (le_refl 0) (le_refl 0)
    (by rw [hTM]; simp only [maxInt32]; omega)
    (by rw [hTD]; simp only [maxInt32]; omega)
    (by rw [hTN]; simp only [longMaxValue]; omega)
  rw [hTM, hTD, hTN] at hfold
  constructor
  · show ((A ++ B ++ C ++ D).foldlM builderAdd
        ⟨(decide (m < 0) || decide (dy < 0) || decide (ns < 0)), 0, 0, 0, 0⟩
          >>= fun b => (Except.ok (builderBuild b) : Except String Duration))
        = Except.ok ⟨m, dy, ns⟩
    rw [hfold]
    have hbind : ((Except.ok (⟨(decide (m < 0) || decide (dy < 0) || decide (ns < 0)), u,
        0 + (am : Int), 0 + (ad : Int), 0 + nsA⟩ : DurBuilder) : Except String DurBuilder)
          >>= fun b => Except.ok (builderBuild b))
        = Except.ok (builderBuild ⟨(decide (m < 0) || decide (dy < 0) || decide (ns < 0)),
            u, 0 + (am : Int), 0 + (ad : Int), 0 + nsA⟩) := rfl
    rw [hbind]
    by_cases hneg : m < 0 ∨ dy < 0 ∨ ns < 0
    · have hb : (decide (m < 0) || decide (dy < 0) || decide (ns < 0)) = true := by
        rcases hneg with h | h | h <;> simp [h]
      have hall : m ≤ 0 ∧ dy ≤ 0 ∧ ns ≤ 0 := by
        rcases hP with ⟨h1, h2, h3⟩ | h
        · rcases hneg with h | h | h <;> omega
        · exact h
      simp only [builderBuild, hb, if_true]
      simp only [Except.ok.injEq, Duration.mk.injEq]
      refine ⟨by omega, by omega, ?_⟩
      have harg : -(0 + nsA) = ns := by omega
      rw [harg, i64wrap_of_range ns (by omega) (by omega)]
    · have hb : (decide (m < 0) || decide (dy < 0) || decide (ns < 0)) = false := by
        push_neg at hneg
        simp [hneg.1, hneg.2.1, hneg.2.2]
      simp only [builderBuild, hb]
      rw [if_neg (by simp)]
      simp only [Except.ok.injEq, Duration.mk.injEq]
      push_neg at hneg
      refine ⟨by omega, by omega, by omega⟩
  · simp only [Bool.or_eq_true, decide_eq_true_eq]
    omega

/-- Claim C2 counterexample: the printable duration of 23 months renders
with a rounded years figure — `(23 / 12).toFixed(0)` is `"2"` — as
"2y11mo", which parses back as 35 months, so parsing the rendered form of a
printable duration does not return an equal duration. -/
theorem claim_C2_counterexample :
    durationToString ⟨23, 0, 0⟩ = (false, [(2, .years), (11, .months)]) ∧
    durationFromString (durationToString ⟨23, 0, 0⟩) = .ok ⟨35, 0, 0⟩ ∧
    durationFromString (durationToString ⟨23, 0, 0⟩) ≠ .ok ⟨23, 0, 0⟩ := by
  refine ⟨rfl, rfl, ?_⟩
  intro h
  rw [show durationFromString (durationToString ⟨23, 0, 0⟩) = .ok ⟨35, 0, 0⟩ from rfl] at h
  injection h with h1
  injection h1 with h2 h3 h4
  exact absurd h2 (by norm_num)

/-- Witness for C2 at a concrete printable duration (all components
nonpositive, one hour plus five nanoseconds of magnitude). -/
theorem claim_C2_witness :
    durationFromString (durationToString ⟨-13, -2, -3600000000005⟩)
      = .ok ⟨-13, -2, -3600000000005⟩ ∧
    (durationToString ⟨-13, -2, -3600000000005⟩).1 = true := by
  have h := claim_C2_duration_string_roundtrip (-13) (-2) (-3600000000005)
    (Or.inr ⟨by norm_num, by norm_num, by norm_num⟩) (by decide) (by decide)
    (by norm_num) (by norm_num) (by decide)
  exact ⟨h.1, h.2.mpr ⟨by norm_num, by norm_num, by norm_num, by omega⟩⟩


theorem intOfBytesBE_roundtrip (k : Nat) (hk : 0 < k) (n : Int)
    (h1 : -2^(8*k - 1) ≤ n) (h2 : n < 2^(8*k - 1)) :
    intOfBytesBE k (natToBytesBE k ((n % 2^(8*k)).toNat)) = n := by
  have hM : (2:Int)^(8*k) = 2 * 2^(8*k - 1) := by
    rw [← pow_succ']
    congr 1
    omega
  have hMpos : (0:Int) < 2^(8*k) := by positivity
  have hmodnn : 0 ≤ n % 2^(8*k) := Int.emod_nonneg n (by positivity)
  have hmodlt : n % 2^(8*k) < 2^(8*k) := Int.emod_lt_of_pos n hMpos
  have hto : (((n % 2^(8*k)).toNat : Int)) = n % 2^(8*k) := Int.toNat_of_nonneg hmodnn
  have h256 : ((256:Nat)^k : Int) = 2^(8*k) := by
    have hnat := pow256_eq k
    zify at hnat
    exact hnat
  have htake : (n % 2^(8*k)).toNat % 256^k = (n % 2^(8*k)).toNat := by
    apply Nat.mod_eq_of_lt
    have hlt2 : (((n % 2^(8*k)).toNat : Int)) < ((256:Nat)^k : Int) := by
      rw [hto, h256]
      exact hmodlt
    exact_mod_cast hlt2
  unfold intOfBytesBE
  rw [bytesToNatBE_natToBytesBE, htake, hto]
  rcases le_or_lt 0 n with hn | hn
  · have hmod : n % 2^(8*k) = n := Int.emod_eq_of_lt hn (by omega)
    rw [hmod, if_neg (by omega)]
  · have h' : (n + 2^(8*k) * 1) % 2^(8*k) = n % 2^(8*k) := Int.add_mul_emod_self_left n (2^(8*k)) 1
    rw [mul_one] at h'
    have hmod : n % 2^(8*k) = n + 2^(8*k) := by
      rw [← h']
      exact Int.emod_eq_of_lt (by omega) (by omega)
    rw [hmod, if_pos (by omega)]
    omega


theorem int32OfUint_emod (n : Int) (h1 : -2^31 ≤ n) (h2 : n < 2^31) :
    int32OfUint ((n % 2^32).toNat % 256^4) = n := by
  have hnn : 0 ≤ n % 2^32 := Int.emod_nonneg n (by norm_num)
  have hlt : n % 2^32 < 2^32 := Int.emod_lt_of_pos n (by norm_num)
  have hlt4 : (n % 2^32).toNat < 256^4 := by
    norm_num
    omega
  rw [Nat.mod_eq_of_lt hlt4]
  unfold int32OfUint
  split_ifs with hc <;> omega

theorem varintLen_pos (n : Int) : 0 < varintLen n := by
  unfold varintLen
  split <;> omega

theorem varintLen_bounds (n : Int) :
    -2^(8 * varintLen n - 1) ≤ n ∧ n < 2^(8 * varintLen n - 1) := by
  induction n using varintLen.induct with
  | case1 n h =>
    have hv : varintLen n = 1 := by
      unfold varintLen
      rw [dif_pos h]
    rw [hv]
    simp only [Nat.reduceMul, Nat.reduceSub]
    omega
  | case2 n h ih =>
    have hv : varintLen n = 1 + varintLen (n / 256) := by
      conv_lhs => unfold varintLen
      rw [dif_neg h]
    rw [hv]
    have hKpos : 0 < varintLen (n / 256) := varintLen_pos (n / 256)
    set K := varintLen (n / 256) with hK
    have hexp : 8 * (1 + K) - 1 = 8 * K + 7 := by omega
    rw [hexp]
    have hpow : (2:Int)^(8*K+7) = 256 * 2^(8*K-1) := by
      rw [show (256:Int) = 2^8 from rfl, ← pow_add]
      congr 1
      omega
    obtain ⟨ih1, ih2⟩ := ih
    omega

theorem varintBytes_ne_nil (n : Int) : varintBytes n ≠ [] := by
  intro hemp
  have hlen := congrArg List.length hemp
  simp only [varintBytes, natToBytesBE_length, List.length_nil] at hlen
  have := varintLen_pos n
  omega

theorem varintBytes_roundtrip (n : Int) :
    intOfBytesBE (varintBytes n).length (varintBytes n) = n := by
  have hk := varintLen_pos n
  obtain ⟨h1, h2⟩ := varintLen_bounds n
  simp only [varintBytes, natToBytesBE_length]
  exact intOfBytesBE_roundtrip (varintLen n) hk n h1 h2

set_option maxHeartbeats 1600000 in
theorem encodeCql_fixedSize (t : CqlType) (s : Nat) (hf : fixedSize t = some s)
    (v : CqlValue) (h : wfCql t v = true) : (encodeCql t v).length = s := by
  cases t <;> simp only [fixedSize] at hf <;> try exact Option.noConfusion hf
  all_goals injection hf with hf
  all_goals subst hf
  case boolean =>
    cases v <;> simp only [wfCql, Bool.false_eq_true, Bool.and_eq_true, Bool.or_eq_true, decide_eq_true_eq] at h <;> try exact Bool.noConfusion h
    simp [encodeCql]
  case tinyint =>
    cases v <;> simp only [wfCql, Bool.false_eq_true, Bool.and_eq_true, Bool.or_eq_true, decide_eq_true_eq] at h <;> try exact Bool.noConfusion h
    simp [encodeCql, natToBytesBE_length]
  case smallint =>
    cases v <;> simp only [wfCql, Bool.false_eq_true, Bool.and_eq_true, Bool.or_eq_true, decide_eq_true_eq] at h <;> try exact Bool.noConfusion h
    simp [encodeCql, natToBytesBE_length]
  case int =>
    cases v <;> simp only [wfCql, Bool.false_eq_true, Bool.and_eq_true, Bool.or_eq_true, decide_eq_true_eq] at h <;> try exact Bool.noConfusion h
    simp [encodeCql, natToBytesBE_length]
  case bigint =>
    cases v <;> simp only [wfCql, Bool.false_eq_true, Bool.and_eq_true, Bool.or_eq_true, decide_eq_true_eq] at h <;> try exact Bool.noConfusion h
    simp [encodeCql, natToBytesBE_length]
  case counter =>
    cases v <;> simp only [wfCql, Bool.false_eq_true, Bool.and_eq_true, Bool.or_eq_true, decide_eq_true_eq] at h <;> try exact Bool.noConfusion h
    simp [encodeCql, natToBytesBE_length]
  case timestamp =>
    cases v <;> simp only [wfCql, Bool.false_eq_true, Bool.and_eq_true, Bool.or_eq_true, decide_eq_true_eq] at h <;> try exact Bool.noConfusion h
    simp [encodeCql, natToBytesBE_length]
  case date =>
    cases v <;> simp only [wfCql, Bool.false_eq_true, Bool.and_eq_true, Bool.or_eq_true, decide_eq_true_eq] at h <;> try exact Bool.noConfusion h
    simp [encodeCql, natToBytesBE_length]
  case time =>
    cases v <;> simp only [wfCql, Bool.false_eq_true, Bool.and_eq_true, Bool.or_eq_true, decide_eq_true_eq] at h <;> try exact Bool.noConfusion h
    simp [encodeCql, natToBytesBE_length]
  case float =>
    cases v <;> simp only [wfCql, Bool.false_eq_true, Bool.and_eq_true, Bool.or_eq_true, decide_eq_true_eq] at h <;> try exact Bool.noConfusion h
    simp [encodeCql, natToBytesBE_length]
  case double =>
    cases v <;> simp only [wfCql, Bool.false_eq_true, Bool.and_eq_true, Bool.or_eq_true, decide_eq_true_eq] at h <;> try exact Bool.noConfusion h
    simp [encodeCql, natToBytesBE_length]
  case uuid =>
    cases v <;> simp only [wfCql, Bool.false_eq_true, Bool.and_eq_true, Bool.or_eq_true, decide_eq_true_eq] at h <;> try exact Bool.noConfusion h
    simp [encodeCql, h.1]
  case timeuuid =>
    cases v <;> simp only [wfCql, Bool.false_eq_true, Bool.and_eq_true, Bool.or_eq_true, decide_eq_true_eq] at h <;> try exact Bool.noConfusion h
    simp [encodeCql, h.1]

set_option maxHeartbeats 1600000 in
mutual
theorem decodeCql_encodeCql (v : CqlValue) (t : CqlType) (h : wfCql t v = true) :
    decodeCql t (encodeCql t v) = some v := by
  cases v with
  | boolean b =>
      cases t <;> simp only [wfCql, Bool.false_eq_true, Bool.and_eq_true, Bool.or_eq_true, decide_eq_true_eq] at h <;> try exact Bool.noConfusion h
      cases b <;> simp [encodeCql, decodeCql]
  | tinyint n =>
      cases t <;> simp only [wfCql, Bool.false_eq_true, Bool.and_eq_true, Bool.or_eq_true, decide_eq_true_eq] at h <;> try exact Bool.noConfusion h
      simp only [encodeCql, decodeCql, natToBytesBE_length]
      rw [if_pos trivial]
      have hr := intOfBytesBE_roundtrip 1 (by norm_num) n (by norm_num; omega) (by norm_num; omega)
      simp only [Nat.reduceMul] at hr
      rw [hr]
  | smallint n =>
      cases t <;> simp only [wfCql, Bool.false_eq_true, Bool.and_eq_true, Bool.or_eq_true, decide_eq_true_eq] at h <;> try exact Bool.noConfusion h
      simp only [encodeCql, decodeCql, natToBytesBE_length]
      rw [if_pos trivial]
      have hr := intOfBytesBE_roundtrip 2 (by norm_num) n (by norm_num; omega) (by norm_num; omega)
      simp only [Nat.reduceMul] at hr
      rw [hr]
  | int n =>
      cases t <;> simp only [wfCql, Bool.false_eq_true, Bool.and_eq_true, Bool.or_eq_true, decide_eq_true_eq] at h <;> try exact Bool.noConfusion h
      simp only [encodeCql, decodeCql, natToBytesBE_length]
      rw [if_pos trivial]
      have hr := intOfBytesBE_roundtrip 4 (by norm_num) n (by norm_num; omega) (by norm_num; omega)
      simp only [Nat.reduceMul] at hr
      rw [hr]
  | bigint n =>
      cases t <;> simp only [wfCql, Bool.false_eq_true, Bool.and_eq_true, Bool.or_eq_true, decide_eq_true_eq] at h <;> try exact Bool.noConfusion h
      simp only [encodeCql, decodeCql, natToBytesBE_length]
      rw [if_pos trivial]
      have hr := intOfBytesBE_roundtrip 8 (by norm_num) n (by norm_num; omega) (by norm_num; omega)
      simp only [Nat.reduceMul] at hr
      rw [hr]
  | counter n =>
      cases t <;> simp only [wfCql, Bool.false_eq_true, Bool.and_eq_true, Bool.or_eq_true, decide_eq_true_eq] at h <;> try exact Bool.noConfusion h
      simp only [encodeCql, decodeCql, natToBytesBE_length]
      rw [if_pos trivial]
      have hr := intOfBytesBE_roundtrip 8 (by norm_num) n (by norm_num; omega) (by norm_num; omega)
      simp only [Nat.reduceMul] at hr
      rw [hr]
  | timestamp n =>
      cases t <;> simp only [wfCql, Bool.false_eq_true, Bool.and_eq_true, Bool.or_eq_true, decide_eq_true_eq] at h <;> try exact Bool.noConfusion h
      simp only [encodeCql, decodeCql, natToBytesBE_length]
      rw [if_pos trivial]
      have hr := intOfBytesBE_roundtrip 8 (by norm_num) n (by norm_num; omega) (by norm_num; omega)
      simp only [Nat.reduceMul] at hr
      rw [hr]
  | date n =>
      cases t <;> simp only [wfCql, Bool.false_eq_true, Bool.and_eq_true, Bool.or_eq_true, decide_eq_true_eq] at h <;> try exact Bool.noConfusion h
      simp only [encodeCql, decodeCql, natToBytesBE_length]
      have hmod : n % 256^4 = n := Nat.mod_eq_of_lt (by norm_num; omega)
      rw [if_pos trivial, bytesToNatBE_natToBytesBE, hmod]
  | time n =>
      cases t <;> simp only [wfCql, Bool.false_eq_true, Bool.and_eq_true, Bool.or_eq_true, decide_eq_true_eq] at h <;> try exact Bool.noConfusion h
      simp only [encodeCql, decodeCql, natToBytesBE_length]
      rw [if_pos trivial]
      have hr := intOfBytesBE_roundtrip 8 (by norm_num) n (by norm_num; omega) (by norm_num; omega)
      simp only [Nat.reduceMul] at hr
      rw [hr]
  | float bits =>
      cases t <;> simp only [wfCql, Bool.false_eq_true, Bool.and_eq_true, Bool.or_eq_true, decide_eq_true_eq] at h <;> try exact Bool.noConfusion h
      simp only [encodeCql, decodeCql, natToBytesBE_length]
      have hmod : bits % 256^4 = bits := Nat.mod_eq_of_lt (by norm_num; omega)
      rw [if_pos trivial, bytesToNatBE_natToBytesBE, hmod]
  | double bits =>
      cases t <;> simp only [wfCql, Bool.false_eq_true, Bool.and_eq_true, Bool.or_eq_true, decide_eq_true_eq] at h <;> try exact Bool.noConfusion h
      simp only [encodeCql, decodeCql, natToBytesBE_length]
      have hmod : bits % 256^8 = bits := Nat.mod_eq_of_lt (by norm_num; omega)
      rw [if_pos trivial, bytesToNatBE_natToBytesBE, hmod]
  | varint n =>
      cases t <;> simp only [wfCql, Bool.false_eq_true, Bool.and_eq_true, Bool.or_eq_true, decide_eq_true_eq] at h <;> try exact Bool.noConfusion h
      simp only [encodeCql, decodeCql, if_neg (varintBytes_ne_nil n), varintBytes_roundtrip n]
  | decimal sc un =>
      cases t <;> simp only [wfCql, Bool.false_eq_true, Bool.and_eq_true, Bool.or_eq_true, decide_eq_true_eq] at h <;> try exact Bool.noConfusion h
      simp only [encodeCql, decodeCql, readBytesBE_append, if_neg (varintBytes_ne_nil un),
        int32OfUint_emod sc h.1 h.2, varintBytes_roundtrip un]
  | ascii bs =>
      cases t <;> simp only [wfCql, Bool.false_eq_true, Bool.and_eq_true, Bool.or_eq_true, decide_eq_true_eq] at h <;> try exact Bool.noConfusion h
      simp [encodeCql, decodeCql]
  | text bs =>
      cases t <;> simp only [wfCql, Bool.false_eq_true, Bool.and_eq_true, Bool.or_eq_true, decide_eq_true_eq] at h <;> try exact Bool.noConfusion h
      simp [encodeCql, decodeCql]
  | blob bs =>
      cases t <;> simp only [wfCql, Bool.false_eq_true, Bool.and_eq_true, Bool.or_eq_true, decide_eq_true_eq] at h <;> try exact Bool.noConfusion h
      simp [encodeCql, decodeCql]
  | uuid bs =>
      cases t <;> simp only [wfCql, Bool.false_eq_true, Bool.and_eq_true, Bool.or_eq_true, decide_eq_true_eq] at h <;> try exact Bool.noConfusion h
      simp only [encodeCql, decodeCql]
      rw [if_pos h.1]
  | timeuuid bs =>
      cases t <;> simp only [wfCql, Bool.false_eq_true, Bool.and_eq_true, Bool.or_eq_true, decide_eq_true_eq] at h <;> try exact Bool.noConfusion h
      simp only [encodeCql, decodeCql]
      rw [if_pos h.1]
  | inet bs =>
      cases t <;> simp only [wfCql, Bool.false_eq_true, Bool.and_eq_true, Bool.or_eq_true, decide_eq_true_eq] at h <;> try exact Bool.noConfusion h
      simp only [encodeCql, decodeCql]
      rw [if_pos h.1]
  | duration mo dd nn =>
      cases t <;> simp only [wfCql, Bool.false_eq_true, Bool.and_eq_true, Bool.or_eq_true, decide_eq_true_eq] at h <;> try exact Bool.noConfusion h
      obtain ⟨⟨hmo, hdd⟩, hnn⟩ := h
      simp only [encodeCql, decodeCql]
      simp only [readVInt_writeVInt mo (by omega) (by omega),
        readVInt_writeVInt dd (by omega) (by omega),
        readVInt_writeVInt_nil nn (by omega) (by omega)]
      rw [if_pos trivial]
  | custom bs =>
      cases t <;> simp only [wfCql, Bool.false_eq_true, Bool.and_eq_true, Bool.or_eq_true, decide_eq_true_eq] at h <;> try exact Bool.noConfusion h
      simp [encodeCql, decodeCql]
  | list xs =>
      cases t with
      | list t' =>
          simp only [wfCql, Bool.and_eq_true, decide_eq_true_eq] at h
          simp only [encodeCql, decodeCql]
          rw [readBytesBE_append]
          have hcnt : xs.length % 256^4 = xs.length := Nat.mod_eq_of_lt (by norm_num; omega)
          rw [hcnt]
          have helems := decodeCqlElems_encode t' xs h.2 []
          rw [List.append_nil] at helems
          simp only [helems]
      | _ => simp only [wfCql, Bool.false_eq_true] at h
  | set xs =>
      cases t with
      | set t' =>
          simp only [wfCql, Bool.and_eq_true, decide_eq_true_eq] at h
          simp only [encodeCql, decodeCql]
          rw [readBytesBE_append]
          have hcnt : xs.length % 256^4 = xs.length := Nat.mod_eq_of_lt (by norm_num; omega)
          rw [hcnt]
          have helems := decodeCqlElems_encode t' xs h.2 []
          rw [List.append_nil] at helems
          simp only [helems]
      | _ => simp only [wfCql, Bool.false_eq_true] at h
  | map ps =>
      cases t with
      | map tk tv =>
          simp only [wfCql, Bool.and_eq_true, decide_eq_true_eq] at h
          simp only [encodeCql, decodeCql]
          rw [readBytesBE_append]
          have hcnt : ps.length % 256^4 = ps.length := Nat.mod_eq_of_lt (by norm_num; omega)
          rw [hcnt]
          have hps := decodeCqlPairs_encode tk tv ps h.2 []
          rw [List.append_nil] at hps
          simp only [hps]
      | _ => simp only [wfCql, Bool.false_eq_true] at h
  | tuple xs =>
      cases t with
      | tuple ts =>
          simp only [wfCql] at h
          simp only [encodeCql, decodeCql]
          have hx := decodeCqlTuple_encode ts xs h []
          rw [List.append_nil] at hx
          simp only [hx]
      | _ => simp only [wfCql, Bool.false_eq_true] at h
  | udt xs =>
      cases t with
      | udt nm fs =>
          simp only [wfCql] at h
          simp only [encodeCql, decodeCql]
          have hx := decodeCqlTuple_encode fs xs h []
          rw [List.append_nil] at hx
          simp only [hx]
      | _ => simp only [wfCql, Bool.false_eq_true] at h
  | vector xs =>
      cases t with
      | vector t' dim =>
          simp only [wfCql, Bool.and_eq_true, decide_eq_true_eq] at h
          obtain ⟨hdim, hwf⟩ := h
          subst hdim
          simp only [encodeCql, decodeCql]
          cases hfx : fixedSize t' with
          | some s =>
              simp only [hfx, decodeVecFixed_encode t' s hfx xs hwf]
          | none =>
              simp only [hfx]
              have hx := decodeCqlElems_encode t' xs hwf []
              rw [List.append_nil] at hx
              simp only [hx]
      | _ => simp only [wfCql, Bool.false_eq_true] at h
termination_by (sizeOf v, 0)

theorem decodeCqlElems_encode (t : CqlType) (xs : CqlValueList) (h : wfCqlList t xs = true)
    (rest : List Nat) :
    decodeCqlElems t xs.length (encodeCqlElems t xs ++ rest) = some (xs, rest) := by
  cases xs with
  | nil => simp [CqlValueList.length, encodeCqlElems, decodeCqlElems]
  | cons v vs =>
      simp only [wfCqlList, Bool.and_eq_true, decide_eq_true_eq] at h
      obtain ⟨⟨hv, hlen⟩, hvs⟩ := h
      simp only [CqlValueList.length, encodeCqlElems]
      rw [Nat.add_comm 1 vs.length]
      simp only [List.append_assoc]
      have hmod : (encodeCql t v).length % 256^4 = (encodeCql t v).length :=
        Nat.mod_eq_of_lt (by norm_num; omega)
      have hif : ¬((encodeCql t v ++ (encodeCqlElems t vs ++ rest)).length
          < (encodeCql t v).length) := by
        simp only [List.length_append]
        omega
      have htk : (encodeCql t v ++ (encodeCqlElems t vs ++ rest)).take (encodeCql t v).length
          = encodeCql t v := List.take_left' rfl
      have hdp : (encodeCql t v ++ (encodeCqlElems t vs ++ rest)).drop (encodeCql t v).length
          = encodeCqlElems t vs ++ rest := List.drop_left' rfl
      simp only [decodeCqlElems, readBytesBE_append, hmod, if_neg hif, htk, hdp,
        decodeCql_encodeCql v t hv, decodeCqlElems_encode t vs hvs rest]
termination_by (sizeOf xs, 1)

theorem decodeCqlPairs_encode (k v : CqlType) (ps : CqlPairList)
    (h : wfCqlPairs k v ps = true) (rest : List Nat) :
    decodeCqlPairs k v ps.length (encodeCqlPairs k v ps ++ rest) = some (ps, rest) := by
  cases ps with
  | nil => simp [CqlPairList.length, encodeCqlPairs, decodeCqlPairs]
  | cons kv vv ps' =>
      simp only [wfCqlPairs, Bool.and_eq_true, decide_eq_true_eq] at h
      obtain ⟨⟨⟨hkv, hklen⟩, hvv, hvlen⟩, hps⟩ := h
      simp only [CqlPairList.length, encodeCqlPairs]
      rw [Nat.add_comm 1 ps'.length]
      simp only [List.append_assoc]
      have hmodk : (encodeCql k kv).length % 256^4 = (encodeCql k kv).length :=
        Nat.mod_eq_of_lt (by norm_num; omega)
      have hmodv : (encodeCql v vv).length % 256^4 = (encodeCql v vv).length :=
        Nat.mod_eq_of_lt (by norm_num; omega)
      have hifk : ¬((encodeCql k kv ++ (natToBytesBE 4 (encodeCql v vv).length ++
          (encodeCql v vv ++ (encodeCqlPairs k v ps' ++ rest)))).length
          < (encodeCql k kv).length) := by
        simp only [List.length_append]
        omega
      have htkk : (encodeCql k kv ++ (natToBytesBE 4 (encodeCql v vv).length ++
          (encodeCql v vv ++ (encodeCqlPairs k v ps' ++ rest)))).take (encodeCql k kv).length
          = encodeCql k kv := List.take_left' rfl
      have hdpk : (encodeCql k kv ++ (natToBytesBE 4 (encodeCql v vv).length ++
          (encodeCql v vv ++ (encodeCqlPairs k v ps' ++ rest)))).drop (encodeCql k kv).length
          = natToBytesBE 4 (encodeCql v vv).length ++
            (encodeCql v vv ++ (encodeCqlPairs k v ps' ++ rest)) := List.drop_left' rfl
      have hifv : ¬((encodeCql v vv ++ (encodeCqlPairs k v ps' ++ rest)).length
          < (encodeCql v vv).length) := by
        simp only [List.length_append]
        omega
      have htkv : (encodeCql v vv ++ (encodeCqlPairs k v ps' ++ rest)).take
          (encodeCql v vv).length = encodeCql v vv := List.take_left' rfl
      have hdpv : (encodeCql v vv ++ (encodeCqlPairs k v ps' ++ rest)).drop
          (encodeCql v vv).length = encodeCqlPairs k v ps' ++ rest := List.drop_left' rfl
      simp only [decodeCqlPairs, readBytesBE_append, hmodk, if_neg hifk, htkk, hdpk,
        decodeCql_encodeCql kv k hkv, hmodv, if_neg hifv, htkv, hdpv,
        decodeCql_encodeCql vv v hvv, decodeCqlPairs_encode k v ps' hps rest]
termination_by (sizeOf ps, 1)

theorem decodeCqlTuple_encode (ts : List CqlType) (xs : CqlValueList)
    (h : wfCqlTuple ts xs = true) (rest : List Nat) :
    decodeCqlTuple ts (encodeCqlTuple ts xs ++ rest) = some (xs, rest) := by
  cases xs with
  | nil =>
      cases ts with
      | nil => simp [encodeCqlTuple, decodeCqlTuple]
      | cons t ts' => simp only [wfCqlTuple, Bool.false_eq_true] at h
  | cons v vs =>
      cases ts with
      | nil => simp only [wfCqlTuple, Bool.false_eq_true] at h
      | cons t ts' =>
          simp only [wfCqlTuple, Bool.and_eq_true, decide_eq_true_eq] at h
          obtain ⟨⟨hv, hlen⟩, hvs⟩ := h
          simp only [encodeCqlTuple]
          simp only [List.append_assoc]
          have hmod : (encodeCql t v).length % 256^4 = (encodeCql t v).length :=
            Nat.mod_eq_of_lt (by norm_num; omega)
          have hif : ¬((encodeCql t v ++ (encodeCqlTuple ts' vs ++ rest)).length
              < (encodeCql t v).length) := by
            simp only [List.length_append]
            omega
          have htk : (encodeCql t v ++ (encodeCqlTuple ts' vs ++ rest)).take
              (encodeCql t v).length = encodeCql t v := List.take_left' rfl
          have hdp : (encodeCql t v ++ (encodeCqlTuple ts' vs ++ rest)).drop
              (encodeCql t v).length = encodeCqlTuple ts' vs ++ rest := List.drop_left' rfl
          simp only [decodeCqlTuple, readBytesBE_append, hmod, if_neg hif, htk, hdp,
            decodeCql_encodeCql v t hv, decodeCqlTuple_encode ts' vs hvs rest]
termination_by (sizeOf xs, 1)

theorem decodeVecFixed_encode (t : CqlType) (s : Nat) (hf : fixedSize t = some s)
    (xs : CqlValueList) (h : wfCqlList t xs = true) :
    decodeVecFixed t s xs.length (encodeCqlConcat t xs) = some xs := by
  cases xs with
  | nil => simp [CqlValueList.length, encodeCqlConcat, decodeVecFixed]
  | cons v vs =>
      simp only [wfCqlList, Bool.and_eq_true, decide_eq_true_eq] at h
      obtain ⟨⟨hv, hlen⟩, hvs⟩ := h
      have hs := encodeCql_fixedSize t s hf v hv
      simp only [CqlValueList.length, encodeCqlConcat]
      rw [Nat.add_comm 1 vs.length]
      have hif : ¬((encodeCql t v ++ encodeCqlConcat t vs).length < s) := by
        simp only [List.length_append]
        omega
      have htk : (encodeCql t v ++ encodeCqlConcat t vs).take s = encodeCql t v := by
        rw [← hs]
        exact List.take_left' rfl
      have hdp : (encodeCql t v ++ encodeCqlConcat t vs).drop s = encodeCqlConcat t vs := by
        rw [← hs]
        exact List.drop_left' rfl
      simp only [decodeVecFixed, if_neg hif, htk, hdp,
        decodeCql_encodeCql v t hv, decodeVecFixed_encode t s hf vs hvs]
termination_by (sizeOf xs, 1)
end

/-- Claim C1: for every variant of the spec's `CqlType` and every
well-formed value of that type, decoding the encoding of the value at that
type yields the value back; in particular `Duration.fromBuffer` recovers
every in-range duration written by `Duration.toBuffer`, and
`LocalTime.fromBuffer` recovers every valid local time written by
`LocalTime.toBuffer`. -/
theorem claim_C1_codec_roundtrip :
    (∀ (t : CqlType) (v : CqlValue), wfCql t v = true →
        decodeCql t (encodeCql t v) = some v) ∧
    (∀ d : Duration, -2^31 ≤ d.months → d.months < 2^31 →
        -2^31 ≤ d.days → d.days < 2^31 →
        -2^63 ≤ d.nanoseconds → d.nanoseconds < 2^63 →
        Duration.fromBuffer d.toBuffer = some d) ∧
    (∀ t : LocalTime, 0 ≤ t.value → t.value ≤ localTimeMaxNanos →
        LocalTime.fromBuffer t.toBuffer = .ok t) :=
  ⟨fun t v h => decodeCql_encodeCql v t h,
   fun d hm1 hm2 hd1 hd2 hn1 hn2 => duration_fromBuffer_toBuffer d hm1 hm2 hd1 hd2 hn1 hn2,
   fun t h1 h2 => localTime_fromBuffer_toBuffer t h1 h2⟩

/-- Witness for C1: the roundtrip at the concrete list value `[7, -2]` of
type `list<int>`, the concrete duration `(1, 2, 3)` and the concrete local
time `5ns`. -/
theorem claim_C1_witness :
    wfCql (CqlType.list CqlType.int)
        (CqlValue.list (.cons (.int 7) (.cons (.int (-2)) .nil))) = true ∧
    decodeCql (CqlType.list CqlType.int)
        (encodeCql (CqlType.list CqlType.int)
          (CqlValue.list (.cons (.int 7) (.cons (.int (-2)) .nil))))
      = some (CqlValue.list (.cons (.int 7) (.cons (.int (-2)) .nil))) ∧
    Duration.fromBuffer (Duration.toBuffer ⟨1, 2, 3⟩) = some ⟨1, 2, 3⟩ ∧
    LocalTime.fromBuffer (LocalTime.toBuffer ⟨5⟩) = Except.ok ⟨5⟩ := by
  have hwf : wfCql (CqlType.list CqlType.int)
      (CqlValue.list (.cons (.int 7) (.cons (.int (-2)) .nil))) = true := by
    simp [wfCql, wfCqlList, encodeCql, CqlValueList.length, natToBytesBE_length]
  refine ⟨hwf, claim_C1_codec_roundtrip.1 _ _ hwf, ?_, ?_⟩
  · exact claim_C1_codec_roundtrip.2.1 ⟨1, 2, 3⟩ (by norm_num) (by norm_num) (by norm_num)
      (by norm_num) (by norm_num) (by norm_num)
  · exact claim_C1_codec_roundtrip.2.2 ⟨5⟩ (by norm_num) (by norm_num [localTimeMaxNanos])
end NodejsRsDriver
